import Mathlib

/-!
Shallow embedding of the opencode-duo-workflow core (workflow bridge between
the OpenCode host and the GitLab Duo Workflow Service), together with proofs
about its checkpoint differ, async queue, session state machine, tool-call
mapping layer, model adapter stream, token service and prompt extraction.

Sources embedded:
  src/workflow/checkpoint.ts, src/utils/async-queue.ts, src/workflow/types.ts,
  src/workflow/session.ts (tools-config-store bundle), src/workflow/token-service.ts,
  src/provider/tool-mapping.ts, src/provider/prompt.ts,
  provider/duo-workflow-model.ts (DuoWorkflowModel.doStream).
-/

namespace DuoSpec

/-- Left brace character, written via its code point. -/
def lbraceChar : Char := Char.ofNat 123

/-- Right brace character, written via its code point. -/
def rbraceChar : Char := Char.ofNat 125

/-- Single-quote character, written via its code point. -/
def squoteChar : Char := Char.ofNat 39

/-- Backslash character, written via its code point. -/
def bslashChar : Char := Char.ofNat 92

/-- JS values as produced by JSON.parse: a JSON document tree. Objects keep
insertion order (duplicate keys resolved at lookup, last occurrence winning,
as JSON.parse does). Numbers are rationals — JSON numbers are finite decimals,
which ℚ embeds exactly. -/
inductive Json where
  | null : Json
  | bool (b : Bool) : Json
  | num (q : ℚ) : Json
  | str (s : String) : Json
  | arr (elems : List Json) : Json
  | obj (fields : List (String × Json)) : Json
  deriving Repr, Inhabited

/-- JS property read `o[k]` on a parsed JSON value: JSON.parse keeps the last
duplicate key, so lookup scans from the right; reading a property of a
non-object (or a missing property) gives undefined, modelled as none. -/
def Json.getField : Json → String → Option Json
  | .obj fields, k => (fields.reverse.find? (fun p => p.1 = k)).map Prod.snd
  | _, _ => none

/-- Whitespace accepted between tokens by the JSON grammar. -/
def jsonWs (c : Char) : Bool :=
  c = ' ' || c = '\t' || c = '\n' || c = '\r'

/-- Drop JSON inter-token whitespace. -/
def skipWs (cs : List Char) : List Char := cs.dropWhile jsonWs

/-- Value of a hexadecimal digit. -/
def hexVal (c : Char) : Option Nat :=
  if 48 ≤ c.toNat ∧ c.toNat ≤ 57 then some (c.toNat - 48)
  else if 97 ≤ c.toNat ∧ c.toNat ≤ 102 then some (c.toNat - 87)
  else if 65 ≤ c.toNat ∧ c.toNat ≤ 70 then some (c.toNat - 55)
  else none

/-- Decimal digit test. -/
def isDigitChar (c : Char) : Bool := 48 ≤ c.toNat && c.toNat ≤ 57

/-- Numeric value of a digit string. -/
def digitsToNat (ds : List Char) : Nat := ds.foldl (fun n c => n * 10 + (c.toNat - 48)) 0

/-- Body of a JSON string literal after the opening quote: handles the escape
sequences JSON.parse accepts and rejects raw control characters. -/
def parseStringBody : Nat → List Char → List Char → Option (String × List Char)
  | 0, _, _ => none
  | _, [], _ => none
  | fuel + 1, c :: rest, acc =>
    if c = '"' then some (String.mk acc.reverse, rest)
    else if c = bslashChar then
      match rest with
      | [] => none
      | e :: rest2 =>
        if e = '"' then parseStringBody fuel rest2 ('"' :: acc)
        else if e = bslashChar then parseStringBody fuel rest2 (bslashChar :: acc)
        else if e = '/' then parseStringBody fuel rest2 ('/' :: acc)
        else if e = 'b' then parseStringBody fuel rest2 (Char.ofNat 8 :: acc)
        else if e = 'f' then parseStringBody fuel rest2 (Char.ofNat 12 :: acc)
        else if e = 'n' then parseStringBody fuel rest2 ('\n' :: acc)
        else if e = 'r' then parseStringBody fuel rest2 ('\r' :: acc)
        else if e = 't' then parseStringBody fuel rest2 ('\t' :: acc)
        else if e = 'u' then
          match rest2 with
          | h1 :: h2 :: h3 :: h4 :: rest3 =>
            match hexVal h1, hexVal h2, hexVal h3, hexVal h4 with
            | some a, some b, some c2, some d =>
              parseStringBody fuel rest3 (Char.ofNat (a * 4096 + b * 256 + c2 * 16 + d) :: acc)
            | _, _, _, _ => none
          | _ => none
        else none
    else if c.toNat < 32 then none
    else parseStringBody fuel rest (c :: acc)

/-- Fractional digits of a JSON number: none on a bare dot, ([], cs) when no
fraction part is present. -/
def parseFrac : List Char → Option (List Char × List Char)
  | '.' :: r =>
    let f := r.takeWhile isDigitChar
    if f.isEmpty then none else some (f, r.dropWhile isDigitChar)
  | cs => some ([], cs)

/-- Exponent of a JSON number: (0, cs) when no exponent is present. -/
def parseExp : List Char → Option (Int × List Char)
  | [] => some (0, [])
  | c :: r =>
    if c = 'e' ∨ c = 'E' then
      match r with
      | '+' :: rr =>
        let ds := rr.takeWhile isDigitChar
        if ds.isEmpty then none else some ((digitsToNat ds : Int), rr.dropWhile isDigitChar)
      | '-' :: rr =>
        let ds := rr.takeWhile isDigitChar
        if ds.isEmpty then none else some (-(digitsToNat ds : Int), rr.dropWhile isDigitChar)
      | _ =>
        let ds := r.takeWhile isDigitChar
        if ds.isEmpty then none else some ((digitsToNat ds : Int), r.dropWhile isDigitChar)
    else some (0, c :: r)

/-- JSON number literal: `-? (0 | [1-9][0-9]*) frac? exp?`, valued in ℚ. -/
def parseNumber (cs : List Char) : Option (ℚ × List Char) :=
  let neg : Bool := cs.head? = some '-'
  let cs1 := if neg then cs.drop 1 else cs
  let ds := cs1.takeWhile isDigitChar
  if ds.isEmpty then none
  else if 1 < ds.length ∧ ds.head? = some '0' then none
  else
    match parseFrac (cs1.dropWhile isDigitChar) with
    | none => none
    | some (fds, cs2) =>
      match parseExp cs2 with
      | none => none
      | some (e, cs3) =>
        let mantissa : ℚ := (digitsToNat ds : ℚ) + (digitsToNat fds : ℚ) / ((10 : ℚ) ^ fds.length)
        let value : ℚ := (if neg then -mantissa else mantissa) * (10 : ℚ) ^ e
        some (value, cs3)

mutual

/-- One JSON value (JSON.parse grammar), with fuel for nesting. -/
def parseVal : Nat → List Char → Option (Json × List Char)
  | 0, _ => none
  | fuel + 1, cs =>
    match skipWs cs with
    | [] => none
    | c :: rest =>
      if c = 'n' then
        match rest with
        | 'u' :: 'l' :: 'l' :: r => some (.null, r)
        | _ => none
      else if c = 't' then
        match rest with
        | 'r' :: 'u' :: 'e' :: r => some (.bool true, r)
        | _ => none
      else if c = 'f' then
        match rest with
        | 'a' :: 'l' :: 's' :: 'e' :: r => some (.bool false, r)
        | _ => none
      else if c = '"' then
        match parseStringBody (rest.length + 1) rest [] with
        | some (s, r) => some (.str s, r)
        | none => none
      else if c = '[' then
        match skipWs rest with
        | ']' :: r => some (.arr [], r)
        | r => parseArrItems fuel r []
      else if c = lbraceChar then
        match skipWs rest with
        | c2 :: r => if c2 = rbraceChar then some (.obj [], r) else parseObjItems fuel (c2 :: r) []
        | [] => none
      else
        match parseNumber (c :: rest) with
        | some (q, r) => some (.num q, r)
        | none => none

/-- Array elements after `[`, at least one element expected. -/
def parseArrItems : Nat → List Char → List Json → Option (Json × List Char)
  | 0, _, _ => none
  | fuel + 1, cs, acc =>
    match parseVal fuel cs with
    | none => none
    | some (v, r) =>
      match skipWs r with
      | ']' :: r2 => some (.arr (acc ++ [v]), r2)
      | ',' :: r2 => parseArrItems fuel r2 (acc ++ [v])
      | _ => none

/-- Object members after the opening brace, at least one member expected. -/
def parseObjItems : Nat → List Char → List (String × Json) → Option (Json × List Char)
  | 0, _, _ => none
  | fuel + 1, cs, acc =>
    match skipWs cs with
    | [] => none
    | c :: r =>
      if c = '"' then
        match parseStringBody (r.length + 1) r [] with
        | none => none
        | some (k, r2) =>
          match skipWs r2 with
          | ':' :: r3 =>
            match parseVal fuel r3 with
            | none => none
            | some (v, r4) =>
              match skipWs r4 with
              | c2 :: r5 =>
                if c2 = rbraceChar then some (.obj (acc ++ [(k, v)]), r5)
                else if c2 = ',' then parseObjItems fuel r5 (acc ++ [(k, v)])
                else none
              | [] => none
          | _ => none
      else none

end

/-- JSON.parse: parses one value and requires only whitespace to follow.
Returns none where JSON.parse would throw. -/
def jsonParse (s : String) : Option Json :=
  match parseVal (2 * s.data.length + 8) s.data with
  | some (v, rest) => if (skipWs rest).isEmpty then some v else none
  | none => none

/-- JS `s.startsWith(p)`. -/
def jsStartsWith (s p : String) : Bool := List.isPrefixOf p.data s.data

/-- JS `s.slice(n)` for `0 ≤ n`. -/
def jsSliceFrom (s : String) (n : Nat) : String := String.mk (s.data.drop n)

/-- A validated ui_chat_log entry (src/workflow/types.ts UiChatLogEntry).
correlation_id and tool_info are kept as raw JSON values; the differ only
reads message_type and content. -/
structure UiChatLogEntry where
  message_type : String
  content : String
  correlation_id : Option Json
  tool_info : Option Json
  deriving Repr

/-- Mirrors isUiChatLogEntry (src/workflow/checkpoint.ts): keeps values that
are non-null objects whose message_type is one of the four literals and whose
content is a string. Arrays and primitives fail the property reads exactly as
in JS (undefined is never a string). -/
def toUiChatLogEntry (v : Json) : Option UiChatLogEntry :=
  match v.getField "message_type", v.getField "content" with
  | some (.str mt), some (.str c) =>
    if mt = "user" ∨ mt = "agent" ∨ mt = "tool" ∨ mt = "request" then
      some ⟨mt, c, v.getField "correlation_id", v.getField "tool_info"⟩
    else none
  | _, _ => none

/-- parseCheckpoint (src/workflow/checkpoint.ts): empty string and JSON.parse
failures give []; a parse result without an array at
channel_values.ui_chat_log gives []; otherwise the array filtered to valid
entries. Reading a property of null inside the try block throws in JS and is
caught, which coincides with getField returning none here. -/
def parseCheckpoint (raw : String) : List UiChatLogEntry :=
  if raw = "" then []
  else
    match jsonParse raw with
    | none => []
    | some parsed =>
      match (parsed.getField "channel_values").bind (fun cv => cv.getField "ui_chat_log") with
      | some (.arr log) => log.filterMap toUiChatLogEntry
      | _ => []

/-- Checkpoint state (src/workflow/checkpoint.ts CheckpointState). -/
structure CheckpointState where
  uiChatLog : List UiChatLogEntry
  processedRequestIndices : List Nat
  deriving Repr

/-- createCheckpointState. -/
def createCheckpointState : CheckpointState := ⟨[], []⟩

/-- One iteration of the extractAgentTextDeltas loop: the deltas contributed
by the new log entry at some index, given the previous state entry there. -/
def entryDeltas (previous : Option UiChatLogEntry) (item : UiChatLogEntry) : List String :=
  if item.message_type ≠ "agent" then []
  else
    match previous with
    | none => if item.content ≠ "" then [item.content] else []
    | some prev =>
      if prev.message_type ≠ "agent" then
        if item.content ≠ "" then [item.content] else []
      else if item.content = prev.content then []
      else if jsStartsWith item.content prev.content then
        let d := jsSliceFrom item.content prev.content.data.length
        if d ≠ "" then [d] else []
      else if item.content ≠ "" then [item.content] else []

/-- extractAgentTextDeltas (src/workflow/checkpoint.ts): returns the emitted
deltas and the updated state (the TS version mutates `state`; state.uiChatLog
is read during the loop and overwritten only at the end). The for loop over
indices 0..next.length is rendered as a flatMap over the range. -/
def extractAgentTextDeltas (checkpoint : String) (state : CheckpointState) :
    List String × CheckpointState :=
  let next := parseCheckpoint checkpoint
  ((List.range next.length).flatMap fun i =>
      match next[i]? with
      | some item => entryDeltas state.uiChatLog[i]? item
      | none => [],
   { state with uiChatLog := next })

/-- State of the AsyncQueue (src/utils/async-queue.ts): buffered values in
FIFO order, suspended consumers' resolvers (as tokens, in arrival order), and
the closed flag. -/
structure AsyncQueue (T : Type) where
  values : List T
  waiters : List Nat
  closed : Bool
  deriving Repr

/-- A delivery resolves a waiter token with a value; none is the
end-of-stream sentinel (null in the source). -/
abbrev Delivery (T : Type) := Nat × Option T

/-- AsyncQueue.push: dropped when closed; handed directly to the first
suspended waiter when one exists; buffered at the tail otherwise. -/
def AsyncQueue.push (q : AsyncQueue T) (v : T) : AsyncQueue T × List (Delivery T) :=
  if q.closed then (q, [])
  else
    match q.waiters with
    | w :: rest => ({ q with waiters := rest }, [(w, some v)])
    | [] => ({ q with values := q.values ++ [v] }, [])

/-- Outcome of AsyncQueue.shift for the calling consumer. -/
inductive ShiftOutcome (T : Type) where
  | value (v : T)
  | ended
  | suspended (token : Nat)
  deriving Repr

/-- AsyncQueue.shift: returns the oldest buffered value if any; the end
sentinel if none and closed; otherwise suspends the consumer. -/
def AsyncQueue.shift (q : AsyncQueue T) (token : Nat) : AsyncQueue T × ShiftOutcome T :=
  match q.values with
  | v :: rest => ({ q with values := rest }, .value v)
  | [] =>
    if q.closed then (q, .ended)
    else ({ q with waiters := q.waiters ++ [token] }, .suspended token)

/-- AsyncQueue.close: sets closed, wakes every suspended waiter with the end
sentinel, clears the waiter list. -/
def AsyncQueue.close (q : AsyncQueue T) : AsyncQueue T × List (Delivery T) :=
  ({ q with closed := true, waiters := [] }, q.waiters.map (fun w => (w, none)))

/-- isTerminal (src/workflow/types.ts). -/
def isTerminal (status : String) : Bool :=
  status = "FINISHED" || status = "FAILED" || status = "STOPPED"

/-- isTurnBoundary (src/workflow/types.ts). -/
def isTurnBoundary (status : String) : Bool :=
  status = "INPUT_REQUIRED" || status = "PLAN_APPROVAL_REQUIRED"

/-- isToolApproval (src/workflow/types.ts). -/
def isToolApproval (status : String) : Bool :=
  status = "TOOL_CALL_APPROVAL_REQUIRED"

/-- isTurnComplete (src/workflow/types.ts). -/
def isTurnComplete (status : String) : Bool :=
  isTerminal status || isTurnBoundary status

/-- Observable state of a WorkflowSession (src/workflow/session.ts): the
fields the checkpoint/close handlers read and write. Socket and queue are
tracked as presence flags; the live queue is named by a token in effects. -/
structure SessionState where
  workflowId : Option String
  checkpoint : CheckpointState
  pendingApproval : Bool
  resumed : Bool
  startRequestSent : Bool
  socketPresent : Bool
  queuePresent : Bool
  deriving Repr

/-- WorkflowSession constructor: an existing workflow id sets resumed. -/
def mkWorkflowSession (existingWorkflowId : Option String) : SessionState :=
  { workflowId := existingWorkflowId
    checkpoint := createCheckpointState
    pendingApproval := false
    resumed := existingWorkflowId.isSome
    startRequestSent := false
    socketPresent := false
    queuePresent := false }

/-- Externally visible operations the session performs on its queue and
socket while handling an action or a socket close. -/
inductive SessionEffect where
  | pushDelta (queue : Nat) (value : String)
  | pushError (queue : Nat) (message : String)
  | closeQueue (queue : Nat)
  | closeSocket
  | reconnectWithApproval (queue : Nat)
  deriving Repr, DecidableEq

/-- The checkpoint branch of WorkflowSession.#handleAction: always feed the
checkpoint into extractAgentTextDeltas; when resumed, discard the deltas and
clear the flag, else push each delta; then set pendingApproval on a
tool-approval status (without closing anything), or close queue and
connection on a turn-complete status (#closeConnection also clears
pendingApproval and startRequestSent). -/
def handleCheckpointAction (status checkpointRaw : String) (queue : Nat)
    (st : SessionState) : SessionState × List SessionEffect :=
  let extracted := extractAgentTextDeltas checkpointRaw st.checkpoint
  let st1 := { st with checkpoint := extracted.2 }
  let st2 := if st1.resumed then { st1 with resumed := false } else st1
  let deltaEffects : List SessionEffect :=
    if st1.resumed then [] else extracted.1.map (SessionEffect.pushDelta queue)
  if isToolApproval status then
    ({ st2 with pendingApproval := true }, deltaEffects)
  else if isTurnComplete status then
    ({ st2 with pendingApproval := false, socketPresent := false
                queuePresent := false, startRequestSent := false },
      deltaEffects ++ [.closeQueue queue, .closeSocket])
  else (st2, deltaEffects)

/-- The socket close callback installed by #connectSocket: drop the socket;
when pendingApproval, clear it and reconnect with approval on the same queue;
otherwise drop the queue reference and close the queue. -/
def handleSocketClose (queue : Nat) (st : SessionState) :
    SessionState × List SessionEffect :=
  let st1 := { st with socketPresent := false }
  if st1.pendingApproval then
    ({ st1 with pendingApproval := false }, [.reconnectWithApproval queue])
  else
    ({ st1 with queuePresent := false }, [.closeQueue queue])

/-- JS numbers as they appear in readExpiry: a finite rational, positive
infinity (Number.POSITIVE_INFINITY) or NaN (from Date.parse on an
unparseable string). -/
inductive JsNum where
  | num (q : ℚ)
  | posInf
  | nan
  deriving Repr, DecidableEq

/-- Math.min on two JS numbers: NaN absorbs, infinity is the identity. -/
def jsMin : JsNum → JsNum → JsNum
  | .nan, _ => .nan
  | _, .nan => .nan
  | .posInf, b => b
  | a, .posInf => a
  | .num a, .num b => .num (min a b)

/-- Number.isFinite. -/
def JsNum.isFinite : JsNum → Bool
  | .num _ => true
  | _ => false

/-- The direct_access response fields readExpiry inspects
(src/workflow/types.ts WorkflowDirectAccessResponse): the workflow token
expiry when present as a number (unix seconds) and the rails expiry when
present as a string. -/
structure DirectAccessResponse where
  duoWorkflowServiceTokenExpiresAt : Option ℚ
  gitlabRailsTokenExpiresAt : Option String
  deriving Repr

/-- Modelled from the spec: WORKFLOW_TOKEN_EXPIRY_BUFFER_MS lives in
src/constants.ts, which is not among the sources; §4.5 gives a safety margin
with default 60 s. -/
def WORKFLOW_TOKEN_EXPIRY_BUFFER_MS : ℚ := 60000

/-- readExpiry (src/workflow/token-service.ts). dateParse models the JS
Date.parse builtin: milliseconds since epoch, none where it yields NaN. -/
def readExpiry (dateParse : String → Option ℚ) (now : ℚ)
    (value : DirectAccessResponse) : ℚ :=
  let workflowExpiry : JsNum :=
    match value.duoWorkflowServiceTokenExpiresAt with
    | some t => .num (t * 1000)
    | none => .posInf
  let railsExpiry : JsNum :=
    match value.gitlabRailsTokenExpiresAt with
    | some s =>
      match dateParse s with
      | some ms => .num ms
      | none => .nan
    | none => .posInf
  match jsMin workflowExpiry railsExpiry with
  | .num e => max (now + 1000) (e - WORKFLOW_TOKEN_EXPIRY_BUFFER_MS)
  | _ => now + 5 * 60 * 1000

/-- A cache entry of WorkflowTokenService. -/
structure CachedToken where
  value : DirectAccessResponse
  expiresAt : ℚ
  deriving Repr

/-- WorkflowTokenService.get for one namespace key: `cached` is the map entry
for that key, `fetchResult` the outcome of the direct_access POST (none when
it throws). Returns the result, the new cache entry for the key, and whether
a fetch happened. -/
def tokenGet (dateParse : String → Option ℚ) (now : ℚ) (cached : Option CachedToken)
    (fetchResult : Option DirectAccessResponse) :
    Option DirectAccessResponse × Option CachedToken × Bool :=
  let fetched : Option DirectAccessResponse × Option CachedToken × Bool :=
    match fetchResult with
    | none => (none, cached, true)
    | some v => (some v, some ⟨v, readExpiry dateParse now v⟩, true)
  match cached with
  | some c => if now < c.expiresAt then (some c.value, some c, false) else fetched
  | none => fetched

/-- Field read on a plain JS object rendered as an assoc list. -/
def objGet (o : List (String × Json)) (k : String) : Option Json :=
  (o.reverse.find? (fun p => p.1 = k)).map Prod.snd

/-- asString (tool-mapping.ts): `typeof value === "string"`. none is
undefined. -/
def asString : Option Json → Option String
  | some (.str s) => some s
  | _ => none

/-- Falsiness of a string-or-undefined value (`!filePath`). -/
def strFalsy : Option String → Bool
  | none => true
  | some s => s = ""

/-- JS Boolean() truthiness of a field value (undefined → false). -/
def jsTruthy : Option Json → Bool
  | none => false
  | some .null => false
  | some (.bool b) => b
  | some (.num q) => q ≠ 0
  | some (.str s) => s ≠ ""
  | some (.arr _) => true
  | some (.obj _) => true

/-- Characters of JS whitespace as used by String.prototype.trim: space,
tab, LF, CR, VT, FF, NBSP, BOM, line and paragraph separators. -/
def jsIsWs (c : Char) : Bool :=
  c = ' ' || c = '\t' || c = '\n' || c = '\r' || c.toNat = 11 || c.toNat = 12 ||
  c.toNat = 160 || c.toNat = 65279 || c.toNat = 8232 || c.toNat = 8233

/-- JS `s.trim()`. -/
def jsTrim (s : String) : String :=
  String.mk (((s.data.dropWhile jsIsWs).reverse.dropWhile jsIsWs).reverse)

/-- Characters the shellQuote bare-token regex accepts:
`^[a-zA-Z0-9_\-./=:@]+$`. -/
def isBareChar (c : Char) : Bool :=
  (97 ≤ c.toNat && c.toNat ≤ 122) || (65 ≤ c.toNat && c.toNat ≤ 90) ||
  (48 ≤ c.toNat && c.toNat ≤ 57) ||
  c = '_' || c = '-' || c = '.' || c = '/' || c = '=' || c = ':' || c = '@'

/-- shellQuote (tool-mapping.ts): bare tokens pass through; everything else
is single-quoted with internal quotes escaped as quote-backslash-quote-quote. -/
def shellQuote (s : String) : String :=
  if s ≠ "" ∧ s.data.all isBareChar then s
  else
    String.mk
      (squoteChar ::
        (s.data.flatMap fun c =>
          if c = squoteChar then [squoteChar, bslashChar, squoteChar, squoteChar] else [c]) ++
        [squoteChar])

/-- JS String() conversion of a JSON-shaped value, as used for labels and
for run_command flags/arguments. In every reachable call the value is already
a string; non-integer number rendering is approximated (ℚ numerator for
integers, numerator/denominator otherwise), which no embedded code path
reaches with a non-string. -/
def jsToString : Nat → Json → String
  | _, .null => "null"
  | _, .bool b => if b then "true" else "false"
  | _, .num q => if q.den = 1 then toString q.num else toString q.num ++ "/" ++ toString q.den
  | _, .str s => s
  | 0, .arr _ => ""
  | fuel + 1, .arr l => String.intercalate "," (l.map (jsToString fuel))
  | _, .obj _ => "[object Object]"

/-- unwrapWrappingQuotes (tool-mapping.ts): trim, then strip one layer of
matching single or double quotes when the first and last characters agree. -/
def unwrapWrappingQuotes (value : String) : String :=
  let trimmed := jsTrim value
  if trimmed.data.length < 2 then trimmed
  else
    let first := trimmed.data.head?
    let last := trimmed.data.getLast?
    if first = last ∧ (first = some squoteChar ∨ first = some '"') then
      String.mk ((trimmed.data.drop 1).dropLast)
    else trimmed

/-- A mapped OpenCode tool call (tool-mapping.ts MappedToolCall); args is a
plain JS object. -/
structure MappedToolCall where
  toolName : String
  args : List (String × Json)
  deriving Repr

/-- A mapping result: one call or a multi-call expansion. -/
abbrev MappedResult := MappedToolCall ⊕ List MappedToolCall

/-- invalidTool (tool-mapping.ts). -/
def invalidTool (tool error : String) : MappedToolCall :=
  ⟨"invalid", [("tool", .str tool), ("error", .str error)]⟩

/-- parsePayloadFromArguments (tool-mapping.ts): requires a non-empty array
whose first element is a string. -/
def parsePayloadFromArguments (rawArguments : Option Json) (program : String) :
    Except String String :=
  match rawArguments with
  | some (.arr (first :: _)) =>
    match first with
    | .str payload => .ok payload
    | _ => .error (program ++ " expects arguments[0] to be a JSON string")
  | _ => .error (program ++ " expects JSON payload in arguments[0]")

/-- parseObjectPayload (tool-mapping.ts): unwrap one quote layer, JSON.parse,
require a non-null non-array object. -/
def parseObjectPayload (rawPayload program : String) :
    Except String (List (String × Json)) :=
  let normalized := unwrapWrappingQuotes rawPayload
  match jsonParse normalized with
  | none => .error (program ++ " payload is not valid JSON")
  | some (.obj fields) => .ok fields
  | some _ => .error (program ++ " payload must be a JSON object")

/-- A validated todo item (tool-mapping.ts TodoItem). -/
structure TodoItem where
  content : String
  status : String
  priority : String
  deriving Repr

/-- TODO_STATUSES. -/
def todoStatuses : List String := ["pending", "in_progress", "completed", "cancelled"]

/-- TODO_PRIORITIES. -/
def todoPriorities : List String := ["high", "medium", "low"]

/-- The loop of parseTodos: validates each element; the falsy-status check of
the source is subsumed by set membership (the empty string is not a valid
status or priority). -/
def parseTodosAux (index : Nat) : List Json → Except String (List TodoItem)
  | [] => .ok []
  | rawTodo :: rest =>
    match rawTodo with
    | .obj fields =>
      match asString (objGet fields "content") with
      | none => .error ("__todo_write__ todos[" ++ toString index ++ "].content must be a string")
      | some content =>
        match asString (objGet fields "status") with
        | some status =>
          if status ∈ todoStatuses then
            match asString (objGet fields "priority") with
            | some priority =>
              if priority ∈ todoPriorities then
                match parseTodosAux (index + 1) rest with
                | .ok todos => .ok (⟨content, status, priority⟩ :: todos)
                | .error e => .error e
              else .error ("__todo_write__ todos[" ++ toString index ++ "].priority must be one of: high, medium, low")
            | none => .error ("__todo_write__ todos[" ++ toString index ++ "].priority must be one of: high, medium, low")
          else .error ("__todo_write__ todos[" ++ toString index ++ "].status must be one of: pending, in_progress, completed, cancelled")
        | none => .error ("__todo_write__ todos[" ++ toString index ++ "].status must be one of: pending, in_progress, completed, cancelled")
    | _ => .error ("__todo_write__ todos[" ++ toString index ++ "] must be an object")

/-- parseTodos (tool-mapping.ts): requires a todos array. -/
def parseTodos (payload : List (String × Json)) : Except String (List TodoItem) :=
  match objGet payload "todos" with
  | some (.arr rawTodos) => parseTodosAux 0 rawTodos
  | _ => .error "__todo_write__ payload must include a todos array"

/-- Serialization of a validated todo item back into the args object. -/
def todoToJson (t : TodoItem) : Json :=
  .obj [("content", .str t.content), ("status", .str t.status), ("priority", .str t.priority)]

/-- WEBFETCH_FORMATS. -/
def webfetchFormats : List String := ["text", "markdown", "html"]

/-- parseWebfetchPayload (tool-mapping.ts): url must be a non-empty string;
format, when present as a string, must be one of the three formats (a
non-string format is ignored, as asString yields undefined); timeout, when
present at all, must be a positive number (parsed JSON numbers are always
finite, so the isFinite guard cannot fire here). -/
def parseWebfetchPayload (rawPayload : String) : Except String (List (String × Json)) :=
  match parseObjectPayload rawPayload "__webfetch__" with
  | .error e => .error e
  | .ok fields =>
    match asString (objGet fields "url") with
    | none => .error "__webfetch__ payload must include a url string"
    | some u =>
      if u = "" then .error "__webfetch__ payload must include a url string"
      else
        let args0 : List (String × Json) := [("url", .str u)]
        let formatStep : Except String (List (String × Json)) :=
          match asString (objGet fields "format") with
          | none => .ok args0
          | some f =>
            if f ∈ webfetchFormats then .ok (args0 ++ [("format", .str f)])
            else .error "__webfetch__ format must be one of: text, markdown, html"
        match formatStep with
        | .error e => .error e
        | .ok args1 =>
          match objGet fields "timeout" with
          | none => .ok args1
          | some (.num t) =>
            if 0 < t then .ok (args1 ++ [("timeout", .num t)])
            else .error "__webfetch__ timeout must be a positive number"
          | some _ => .error "__webfetch__ timeout must be a positive number"

/-- parseSkillPayload (tool-mapping.ts): name must trim to non-empty. -/
def parseSkillPayload (rawPayload : String) : Except String (List (String × Json)) :=
  match parseObjectPayload rawPayload "__skill__" with
  | .error e => .error e
  | .ok fields =>
    match asString (objGet fields "name") with
    | none => .error "__skill__ payload must include a name string"
    | some n =>
      let trimmed := jsTrim n
      if trimmed = "" then .error "__skill__ payload must include a name string"
      else .ok [("name", .str trimmed)]

/-- One element of a question's options array (inner loop of
parseQuestionPayload); the falsy checks on label and description reject both
non-strings and empty strings with the same message. -/
def parseQuestionOption (i j : Nat) (rawOption : Json) : Except String Json :=
  match rawOption with
  | .obj fields =>
    match asString (objGet fields "label") with
    | some label =>
      if label = "" then
        .error ("__question__ questions[" ++ toString i ++ "].options[" ++ toString j ++ "].label must be a string")
      else
        match asString (objGet fields "description") with
        | some description =>
          if description = "" then
            .error ("__question__ questions[" ++ toString i ++ "].options[" ++ toString j ++ "].description must be a string")
          else .ok (.obj [("label", .str label), ("description", .str description)])
        | none =>
          .error ("__question__ questions[" ++ toString i ++ "].options[" ++ toString j ++ "].description must be a string")
    | none =>
      .error ("__question__ questions[" ++ toString i ++ "].options[" ++ toString j ++ "].label must be a string")
  | _ => .error ("__question__ questions[" ++ toString i ++ "].options[" ++ toString j ++ "] must be an object")

/-- The options loop of parseQuestionPayload. -/
def parseQuestionOptionsAux (i j : Nat) : List Json → Except String (List Json)
  | [] => .ok []
  | o :: rest =>
    match parseQuestionOption i j o with
    | .error e => .error e
    | .ok mapped =>
      match parseQuestionOptionsAux i (j + 1) rest with
      | .ok ms => .ok (mapped :: ms)
      | .error e => .error e

/-- One element of the questions array (outer loop of parseQuestionPayload). -/
def parseQuestion (i : Nat) (rawQuestion : Json) : Except String Json :=
  match rawQuestion with
  | .obj fields =>
    match asString (objGet fields "question") with
    | some question =>
      if question = "" then
        .error ("__question__ questions[" ++ toString i ++ "].question must be a string")
      else
        match asString (objGet fields "header") with
        | some header =>
          if header = "" then
            .error ("__question__ questions[" ++ toString i ++ "].header must be a string")
          else
            match objGet fields "options" with
            | some (.arr (o :: os)) =>
              match parseQuestionOptionsAux i 0 (o :: os) with
              | .error e => .error e
              | .ok options =>
                let base : List (String × Json) :=
                  [("question", .str question), ("header", .str header), ("options", .arr options)]
                match objGet fields "multiple" with
                | none => .ok (.obj base)
                | some (.bool b) => .ok (.obj (base ++ [("multiple", .bool b)]))
                | some _ =>
                  .error ("__question__ questions[" ++ toString i ++ "].multiple must be a boolean")
            | _ => .error ("__question__ questions[" ++ toString i ++ "].options must be a non-empty array")
        | none => .error ("__question__ questions[" ++ toString i ++ "].header must be a string")
    | none => .error ("__question__ questions[" ++ toString i ++ "].question must be a string")
  | _ => .error ("__question__ questions[" ++ toString i ++ "] must be an object")

/-- The questions loop of parseQuestionPayload. -/
def parseQuestionsAux (i : Nat) : List Json → Except String (List Json)
  | [] => .ok []
  | q :: rest =>
    match parseQuestion i q with
    | .error e => .error e
    | .ok mapped =>
      match parseQuestionsAux (i + 1) rest with
      | .ok ms => .ok (mapped :: ms)
      | .error e => .error e

/-- parseQuestionPayload (tool-mapping.ts). -/
def parseQuestionPayload (rawPayload : String) : Except String (List (String × Json)) :=
  match parseObjectPayload rawPayload "__question__" with
  | .error e => .error e
  | .ok fields =>
    match objGet fields "questions" with
    | some (.arr (q :: qs)) =>
      match parseQuestionsAux 0 (q :: qs) with
      | .error e => .error e
      | .ok questions => .ok [("questions", .arr questions)]
    | _ => .error "__question__ payload must include a non-empty questions array"

/-- mapTodoWritePayload (tool-mapping.ts). -/
def mapTodoWritePayload (rawPayload : String) : MappedToolCall :=
  match parseObjectPayload rawPayload "__todo_write__" with
  | .error e => invalidTool "todowrite" e
  | .ok fields =>
    match parseTodos fields with
    | .error e => invalidTool "todowrite" e
    | .ok todos => ⟨"todowrite", [("todos", .arr (todos.map todoToJson))]⟩

/-- mapWebfetchPayload (tool-mapping.ts). -/
def mapWebfetchPayload (rawPayload : String) : MappedToolCall :=
  match parseWebfetchPayload rawPayload with
  | .error e => invalidTool "webfetch" e
  | .ok args => ⟨"webfetch", args⟩

/-- mapQuestionPayload (tool-mapping.ts). -/
def mapQuestionPayload (rawPayload : String) : MappedToolCall :=
  match parseQuestionPayload rawPayload with
  | .error e => invalidTool "question" e
  | .ok args => ⟨"question", args⟩

/-- mapSkillPayload (tool-mapping.ts). -/
def mapSkillPayload (rawPayload : String) : MappedToolCall :=
  match parseSkillPayload rawPayload with
  | .error e => invalidTool "skill" e
  | .ok args => ⟨"skill", args⟩

/-- mapTodoWriteCall (tool-mapping.ts). -/
def mapTodoWriteCall (rawArguments : Option Json) : MappedToolCall :=
  match parsePayloadFromArguments rawArguments "__todo_write__" with
  | .error e => invalidTool "todowrite" e
  | .ok payload => mapTodoWritePayload payload

/-- mapWebfetchCall (tool-mapping.ts). -/
def mapWebfetchCall (rawArguments : Option Json) : MappedToolCall :=
  match parsePayloadFromArguments rawArguments "__webfetch__" with
  | .error e => invalidTool "webfetch" e
  | .ok payload => mapWebfetchPayload payload

/-- mapQuestionCall (tool-mapping.ts). -/
def mapQuestionCall (rawArguments : Option Json) : MappedToolCall :=
  match parsePayloadFromArguments rawArguments "__question__" with
  | .error e => invalidTool "question" e
  | .ok payload => mapQuestionPayload payload

/-- mapSkillCall (tool-mapping.ts). -/
def mapSkillCall (rawArguments : Option Json) : MappedToolCall :=
  match parsePayloadFromArguments rawArguments "__skill__" with
  | .error e => invalidTool "skill" e
  | .ok payload => mapSkillPayload payload

/-- mapBridgeCommand (tool-mapping.ts): recognizes the five sentinel bridge
programs at the head of a trimmed shell command, with the exact branch order
of the source. The payload is the text after the program name, trimmed. -/
def mapBridgeCommand (command : String) : Option MappedToolCall :=
  if jsTrim command = "__todo_read__" then some ⟨"todoread", []⟩
  else if jsStartsWith (jsTrim command) "__todo_read__ " then
    some (invalidTool "todoread" "__todo_read__ does not accept a payload")
  else if jsTrim command = "__todo_write__" then
    some (invalidTool "todowrite" "__todo_write__ expects JSON payload after command prefix")
  else if jsTrim command = "__webfetch__" then
    some (invalidTool "webfetch" "__webfetch__ expects JSON payload after command prefix")
  else if jsTrim command = "__question__" then
    some (invalidTool "question" "__question__ expects JSON payload after command prefix")
  else if jsTrim command = "__skill__" then
    some (invalidTool "skill" "__skill__ expects JSON payload after command prefix")
  else if jsStartsWith (jsTrim command) "__todo_write__ " then
    if jsTrim (jsSliceFrom (jsTrim command) "__todo_write__".data.length) = "" then
      some (invalidTool "todowrite" "__todo_write__ expects JSON payload after command prefix")
    else some (mapTodoWritePayload (jsTrim (jsSliceFrom (jsTrim command) "__todo_write__".data.length)))
  else if jsStartsWith (jsTrim command) "__webfetch__ " then
    if jsTrim (jsSliceFrom (jsTrim command) "__webfetch__".data.length) = "" then
      some (invalidTool "webfetch" "__webfetch__ expects JSON payload after command prefix")
    else some (mapWebfetchPayload (jsTrim (jsSliceFrom (jsTrim command) "__webfetch__".data.length)))
  else if jsStartsWith (jsTrim command) "__question__ " then
    if jsTrim (jsSliceFrom (jsTrim command) "__question__".data.length) = "" then
      some (invalidTool "question" "__question__ expects JSON payload after command prefix")
    else some (mapQuestionPayload (jsTrim (jsSliceFrom (jsTrim command) "__question__".data.length)))
  else if jsStartsWith (jsTrim command) "__skill__ " then
    if jsTrim (jsSliceFrom (jsTrim command) "__skill__".data.length) = "" then
      some (invalidTool "skill" "__skill__ expects JSON payload after command prefix")
    else some (mapSkillPayload (jsTrim (jsSliceFrom (jsTrim command) "__skill__".data.length)))
  else none

/-- asStringArray (tool-mapping.ts). -/
def asStringArray : Option Json → List String
  | some (.arr l) => l.filterMap fun v => match v with | .str s => some s | _ => none
  | _ => []

/-- A single quote as a one-character string (curl header literals). -/
def squoteStr : String := String.mk [squoteChar]

/-- Fuel for jsToString: ample for any value depth the embedded paths see
(every reachable call receives a string, which consumes no fuel). -/
def JS_TOSTRING_FUEL : Nat := 100

/-- The tail of the run_command case when neither a bridge command nor a
truthy program applies: bash on the raw command, or passthrough. -/
def runCommandFallback (toolName : String) (args : List (String × Json))
    (command : Option String) : MappedResult :=
  match command with
  | some c =>
    if c = "" then .inl ⟨toolName, args⟩
    else .inl ⟨"bash", [("command", .str c), ("description", .str "Run command"), ("workdir", .str ".")]⟩
  | none => .inl ⟨toolName, args⟩

/-- mapDuoToolRequest (src/provider/tool-mapping.ts): translates a Duo
workflow tool name and args object into one OpenCode call (inl) or a
multi-call expansion (inr, read_files only). Unrecognized names and
malformed required fields pass through unchanged. -/
def mapDuoToolRequest (toolName : String) (args : List (String × Json)) : MappedResult :=
  if toolName = "list_dir" then
    let directory := (asString (objGet args "directory")).getD "."
    .inl ⟨"read", [("filePath", .str directory)]⟩
  else if toolName = "read_file" then
    match (asString (objGet args "file_path")).or
        ((asString (objGet args "filepath")).or
          ((asString (objGet args "filePath")).or (asString (objGet args "path")))) with
    | some fp =>
      if fp = "" then .inl ⟨toolName, args⟩
      else
        let m0 : List (String × Json) := [("filePath", .str fp)]
        let m1 := match objGet args "offset" with
          | some (.num q) => m0 ++ [("offset", .num q)]
          | _ => m0
        let m2 := match objGet args "limit" with
          | some (.num q) => m1 ++ [("limit", .num q)]
          | _ => m1
        .inl ⟨"read", m2⟩
    | none => .inl ⟨toolName, args⟩
  else if toolName = "read_files" then
    let filePaths := asStringArray (objGet args "file_paths")
    if filePaths.isEmpty then .inl ⟨toolName, args⟩
    else .inr (filePaths.map fun fp => ⟨"read", [("filePath", .str fp)]⟩)
  else if toolName = "create_file_with_contents" then
    match asString (objGet args "file_path"), asString (objGet args "contents") with
    | some fp, some content =>
      if fp = "" then .inl ⟨toolName, args⟩
      else .inl ⟨"write", [("filePath", .str fp), ("content", .str content)]⟩
    | _, _ => .inl ⟨toolName, args⟩
  else if toolName = "edit_file" then
    match asString (objGet args "file_path"), asString (objGet args "old_str"),
        asString (objGet args "new_str") with
    | some fp, some oldString, some newString =>
      if fp = "" then .inl ⟨toolName, args⟩
      else .inl ⟨"edit", [("filePath", .str fp), ("oldString", .str oldString), ("newString", .str newString)]⟩
    | _, _, _ => .inl ⟨toolName, args⟩
  else if toolName = "find_files" then
    match asString (objGet args "name_pattern") with
    | some p =>
      if p = "" then .inl ⟨toolName, args⟩ else .inl ⟨"glob", [("pattern", .str p)]⟩
    | none => .inl ⟨toolName, args⟩
  else if toolName = "grep" then
    match asString (objGet args "pattern") with
    | some p =>
      if p = "" then .inl ⟨toolName, args⟩
      else
        let searchDir := asString (objGet args "search_directory")
        let caseInsensitive := jsTruthy (objGet args "case_insensitive")
        let normalizedPattern :=
          if caseInsensitive ∧ ¬ jsStartsWith p "(?i)" then "(?i)" ++ p else p
        let m0 : List (String × Json) := [("pattern", .str normalizedPattern)]
        let m1 := match searchDir with
          | some d => if d = "" then m0 else m0 ++ [("path", .str d)]
          | none => m0
        .inl ⟨"grep", m1⟩
    | none => .inl ⟨toolName, args⟩
  else if toolName = "mkdir" then
    match asString (objGet args "directory_path") with
    | some d =>
      if d = "" then .inl ⟨toolName, args⟩
      else .inl ⟨"bash", [("command", .str ("mkdir -p " ++ shellQuote d)), ("description", .str "Create directory"), ("workdir", .str ".")]⟩
    | none => .inl ⟨toolName, args⟩
  else if toolName = "shell_command" then
    match asString (objGet args "command") with
    | some cmd =>
      if cmd = "" then .inl ⟨toolName, args⟩
      else
        match mapBridgeCommand cmd with
        | some bridged => .inl bridged
        | none => .inl ⟨"bash", [("command", .str cmd), ("description", .str "Run shell command"), ("workdir", .str ".")]⟩
    | none => .inl ⟨toolName, args⟩
  else if toolName = "run_command" then
    let command := asString (objGet args "command")
    let bridged := match command with
      | some c => if c = "" then none else mapBridgeCommand c
      | none => none
    match bridged with
    | some b => .inl b
    | none =>
      let program := asString (objGet args "program")
      if program = some "__todo_read__" then .inl ⟨"todoread", []⟩
      else if program = some "__todo_write__" then .inl (mapTodoWriteCall (objGet args "arguments"))
      else if program = some "__webfetch__" then .inl (mapWebfetchCall (objGet args "arguments"))
      else if program = some "__question__" then .inl (mapQuestionCall (objGet args "arguments"))
      else if program = some "__skill__" then .inl (mapSkillCall (objGet args "arguments"))
      else
        match program with
        | some prog =>
          if prog = "" then runCommandFallback toolName args command
          else
            let parts := [shellQuote prog] ++
              (match objGet args "flags" with
               | some (.arr fs) => fs.map (fun f => shellQuote (jsToString JS_TOSTRING_FUEL f))
               | _ => []) ++
              (match objGet args "arguments" with
               | some (.arr vs) => vs.map (fun v => shellQuote (jsToString JS_TOSTRING_FUEL v))
               | _ => [])
            .inl ⟨"bash", [("command", .str (String.intercalate " " parts)), ("description", .str "Run command"), ("workdir", .str ".")]⟩
        | none => runCommandFallback toolName args command
  else if toolName = "run_git_command" then
    match asString (objGet args "command") with
    | some cmd =>
      if cmd = "" then .inl ⟨toolName, args⟩
      else
        let extraArgs : Option String := match objGet args "args" with
          | some (.arr vs) =>
            some (String.intercalate " " (vs.map fun v => shellQuote (jsToString JS_TOSTRING_FUEL v)))
          | other => asString other
        let gitCmd := match extraArgs with
          | some e => if e = "" then "git " ++ shellQuote cmd else "git " ++ shellQuote cmd ++ " " ++ e
          | none => "git " ++ shellQuote cmd
        .inl ⟨"bash", [("command", .str gitCmd), ("description", .str "Run git command"), ("workdir", .str ".")]⟩
    | none => .inl ⟨toolName, args⟩
  else if toolName = "gitlab_api_request" then
    let method := (asString (objGet args "method")).getD "GET"
    match asString (objGet args "path") with
    | some apiPath =>
      if apiPath = "" then .inl ⟨toolName, args⟩
      else
        let body := asString (objGet args "body")
        let curlParts :=
          ["curl", "-s", "-X", method,
            "-H", squoteStr ++ "Authorization: Bearer $GITLAB_TOKEN" ++ squoteStr,
            "-H", squoteStr ++ "Content-Type: application/json" ++ squoteStr] ++
          (match body with
           | some b => if b = "" then [] else ["-d", shellQuote b]
           | none => []) ++
          [shellQuote ("$GITLAB_INSTANCE_URL/api/v4/" ++ apiPath)]
        .inl ⟨"bash", [("command", .str (String.intercalate " " curlParts)), ("description", .str ("GitLab API: " ++ method ++ " " ++ apiPath)), ("workdir", .str ".")]⟩
    | none => .inl ⟨toolName, args⟩
  else .inl ⟨toolName, args⟩

/-- Hex digit character for escapes. -/
def hexDigitChar (n : Nat) : Char :=
  if n < 10 then Char.ofNat (48 + n) else Char.ofNat (87 + n)

/-- JSON.stringify escaping of one character. -/
def stringifyChar (c : Char) : List Char :=
  if c = '"' then [bslashChar, '"']
  else if c = bslashChar then [bslashChar, bslashChar]
  else if c = '\n' then [bslashChar, 'n']
  else if c = '\r' then [bslashChar, 'r']
  else if c = '\t' then [bslashChar, 't']
  else if c.toNat = 8 then [bslashChar, 'b']
  else if c.toNat = 12 then [bslashChar, 'f']
  else if c.toNat < 32 then
    [bslashChar, 'u', '0', '0', hexDigitChar (c.toNat / 16), hexDigitChar (c.toNat % 16)]
  else [c]

/-- JSON.stringify of a string literal. -/
def stringifyString (s : String) : String :=
  String.mk ('"' :: s.data.flatMap stringifyChar ++ ['"'])

/-- Fuel for jsonStringify, ample for any depth the embedded paths build. -/
def STRINGIFY_FUEL : Nat := 100

/-- JSON.stringify of a value (non-integer rationals are approximated, no
embedded path serializes one). -/
def jsonStringify : Nat → Json → String
  | _, .null => "null"
  | _, .bool b => if b then "true" else "false"
  | _, .num q => if q.den = 1 then toString q.num else toString q.num ++ "/" ++ toString q.den
  | _, .str s => stringifyString s
  | 0, .arr _ => ""
  | 0, .obj _ => ""
  | fuel + 1, .arr l => "[" ++ String.intercalate "," (l.map (jsonStringify fuel)) ++ "]"
  | fuel + 1, .obj fs =>
    String.mk [lbraceChar] ++
      String.intercalate ","
        (fs.map fun p => stringifyString p.1 ++ ":" ++ jsonStringify fuel p.2) ++
      String.mk [rbraceChar]

/-- JS Map.set: replace in place when the key exists, append otherwise. -/
def mapSet (m : List (String × α)) (k : String) (v : α) : List (String × α) :=
  if m.any (fun p => p.1 = k) then m.map (fun p => if p.1 = k then (k, v) else p)
  else m ++ [(k, v)]

/-- JS Map.get. -/
def mapGet (m : List (String × α)) (k : String) : Option α :=
  (m.find? (fun p => p.1 = k)).map Prod.snd

/-- JS Map.delete. -/
def mapDelete (m : List (String × α)) (k : String) : List (String × α) :=
  m.filter (fun p => p.1 ≠ k)

/-- JS Set.add (insertion order, idempotent). -/
def setAdd (l : List String) (s : String) : List String :=
  if s ∈ l then l else l ++ [s]

/-- JS Set.delete / Map.delete on an id list. -/
def listDelete (l : List String) (s : String) : List String := l.filter (· ≠ s)

/-- Index scan for JS String.indexOf. -/
def firstIndexOfAux (pat : List Char) : Nat → List Char → Option Nat
  | i, [] => if pat.isEmpty then some i else none
  | i, c :: rest =>
    if List.isPrefixOf pat (c :: rest) then some i else firstIndexOfAux pat (i + 1) rest

/-- JS s.indexOf(pat): none where JS yields -1. -/
def jsIndexOf (s pat : String) : Option Nat := firstIndexOfAux pat.data 0 s.data

/-- Events released by the session queue (src/workflow/session.ts
SessionEvent), as consumed by the model adapter. -/
inductive SessionEvent where
  | textDelta (value : String)
  | toolRequest (requestId toolName : String) (args : List (String × Json))
  | error (message : String)

/-- Host-facing stream parts emitted by DuoWorkflowModel.doStream. -/
inductive StreamPart where
  | streamStart
  | textStart (id : String)
  | textDelta (id delta : String)
  | textEnd (id : String)
  | toolInputStart (id toolName : String)
  | toolInputDelta (id delta : String)
  | toolInputEnd (id : String)
  | toolCall (toolCallId toolName input : String)
  | finishToolCalls
  | finishStop
  | finishError
  | errorPart (message : String)
  deriving Repr, DecidableEq

/-- A multiCallGroups entry (DuoWorkflowModel): collected is a JS Map keyed
by sub-call id. -/
structure MultiCallGroup where
  subIds : List String
  labels : List String
  collected : List (String × String)
  deriving Repr, DecidableEq

/-- Tool tracking state of DuoWorkflowModel: pendingToolRequests and
sentToolCallIds as id lists in insertion order (Map/Set keys). -/
structure ModelState where
  pendingToolRequests : List String
  multiCallGroups : List (String × MultiCallGroup)
  sentToolCallIds : List String
  deriving Repr, DecidableEq

/-- JS nullish coalescing step: null behaves like undefined. -/
def nullish : Option Json → Option Json
  | some .null => none
  | o => o

/-- The label captured at expansion time for one expanded call:
String(m.args.filePath ?? m.args.path ?? ""). -/
def expansionLabel (m : MappedToolCall) : String :=
  match (nullish (objGet m.args "filePath")).or (nullish (objGet m.args "path")) with
  | some v => jsToString JS_TOSTRING_FUEL v
  | none => ""

/-- The tool-request branch of Phase 3 in DuoWorkflowModel.doStream: map the
request; on an array expansion create the sub-IDs, record the group and
pending entries, and emit per-sub tool-input/tool-call parts; on a scalar
emit them for the request id itself; then finish(tool-calls); the stream
closes right after these parts. -/
def handleToolRequest (textId : String) (hasText : Bool) (st : ModelState)
    (requestId toolName : String) (args : List (String × Json)) :
    ModelState × List StreamPart :=
  let pre : List StreamPart := if hasText then [.textEnd textId] else []
  match mapDuoToolRequest toolName args with
  | .inr calls =>
    let subIds := (List.range calls.length).map fun i => requestId ++ "_sub_" ++ toString i
    let group : MultiCallGroup := ⟨subIds, calls.map expansionLabel, []⟩
    let st1 : ModelState :=
      { st with
        multiCallGroups := mapSet st.multiCallGroups requestId group
        pendingToolRequests := subIds.foldl setAdd (setAdd st.pendingToolRequests requestId) }
    let parts := (calls.zip subIds).flatMap fun cs =>
      let inputJson := jsonStringify STRINGIFY_FUEL (.obj cs.1.args)
      [.toolInputStart cs.2 cs.1.toolName, .toolInputDelta cs.2 inputJson,
       .toolInputEnd cs.2, .toolCall cs.2 cs.1.toolName inputJson]
    (st1, pre ++ parts ++ [.finishToolCalls])
  | .inl call =>
    let st1 := { st with pendingToolRequests := setAdd st.pendingToolRequests requestId }
    let inputJson := jsonStringify STRINGIFY_FUEL (.obj call.args)
    (st1, pre ++ [.toolInputStart requestId call.toolName, .toolInputDelta requestId inputJson,
      .toolInputEnd requestId, .toolCall requestId call.toolName inputJson, .finishToolCalls])

/-- Phase 3 of doStream: consume session events in order; empty text deltas
are skipped; the first tool request or error ends the stream (later events
are never read); stream end closes any open text block and finishes with
stop. -/
def consumeEvents (textId : String) : List SessionEvent → Bool → ModelState →
    List StreamPart × ModelState
  | [], hasText, st => ((if hasText then [.textEnd textId] else []) ++ [.finishStop], st)
  | .textDelta v :: rest, hasText, st =>
    if v = "" then consumeEvents textId rest hasText st
    else
      let tail := consumeEvents textId rest true st
      if hasText then (.textDelta textId v :: tail.1, tail.2)
      else (.textStart textId :: .textDelta textId v :: tail.1, tail.2)
  | .toolRequest requestId toolName args :: _, hasText, st =>
    let out := handleToolRequest textId hasText st requestId toolName args
    (out.2, out.1)
  | .error m :: _, _, st => ([.errorPart m, .finishError], st)

/-- One incoming tool result (prompt-utils ExtractedToolResult). -/
structure ToolResult where
  toolCallId : String
  output : String
  error : Option String
  deriving Repr, DecidableEq

/-- Messages doStream sends to the session during Phase 1
(session.sendToolResult calls). -/
inductive AdapterEffect where
  | sendToolResult (requestId output : String) (error : Option String)
  deriving Repr, DecidableEq

/-- The key used for slot i of a multi-call aggregate:
labels[i] || "file_" ++ i (a falsy label — missing or empty — falls back). -/
def fallbackLabel (labels : List String) (i : Nat) : String :=
  match labels[i]? with
  | some l => if l = "" then "file_" ++ toString i else l
  | none => "file_" ++ toString i

/-- The value stored for slot i of a multi-call aggregate:
an object with content collected.get(subIds[i]) ?? "". -/
def aggValue (group : MultiCallGroup) (i : Nat) : Json :=
  .obj [("content", .str (match group.subIds[i]? with
    | some sid => (mapGet group.collected sid).getD ""
    | none => ""))]

/-- The aggregate-building loop of Phase 1: for each i,
result[labels[i] || "file_" ++ i] = the slot value. JS assignment to an
existing key overwrites in place (integer-like keys would be reordered by
JS, which the claims never inspect). -/
def buildAggregate (group : MultiCallGroup) : List (String × Json) :=
  (List.range group.subIds.length).foldl
    (fun acc i => mapSet acc (fallbackLabel group.labels i) (aggValue group i)) []

/-- All aggregate keys of a group, with the falsy fallback applied, in slot
order (before JS object key collapsing). -/
def fallbackLabels (labels : List String) (n : Nat) : List String :=
  (List.range n).map (fallbackLabel labels)

/-- One iteration of the Phase-1 loop over fresh tool results
(DuoWorkflowModel.doStream): sub-results are collected into their group and
trigger the aggregate send when the group fills; plain pending results are
forwarded; anything else is consumed silently. Returns the state, the sends,
and the sentToolResults contribution. -/
def phase1Step (st : ModelState) (r : ToolResult) :
    ModelState × List AdapterEffect × Bool :=
  match jsIndexOf r.toolCallId "_sub_" with
  | some subIdx =>
    let originalId := String.mk (r.toolCallId.data.take subIdx)
    match mapGet st.multiCallGroups originalId with
    | none => ({ st with sentToolCallIds := setAdd st.sentToolCallIds r.toolCallId }, [], false)
    | some group =>
      let group1 :=
        { group with collected := mapSet group.collected r.toolCallId (r.error.getD r.output) }
      let st1 : ModelState :=
        { st with
          multiCallGroups := mapSet st.multiCallGroups originalId group1
          sentToolCallIds := setAdd st.sentToolCallIds r.toolCallId
          pendingToolRequests := listDelete st.pendingToolRequests r.toolCallId }
      if group1.collected.length = group1.subIds.length then
        ({ st1 with
            multiCallGroups := mapDelete st1.multiCallGroups originalId
            pendingToolRequests := listDelete st1.pendingToolRequests originalId },
         [.sendToolResult originalId (jsonStringify STRINGIFY_FUEL (.obj (buildAggregate group1))) none],
         true)
      else (st1, [], false)
  | none =>
    if r.toolCallId ∈ st.pendingToolRequests then
      ({ st with
          sentToolCallIds := setAdd st.sentToolCallIds r.toolCallId
          pendingToolRequests := listDelete st.pendingToolRequests r.toolCallId },
       [.sendToolResult r.toolCallId r.output r.error], true)
    else ({ st with sentToolCallIds := setAdd st.sentToolCallIds r.toolCallId }, [], false)

/-- Phase 1 of doStream: filter the incoming results to those not yet sent,
then run the loop. -/
def phase1Run (st : ModelState) (toolResults : List ToolResult) :
    ModelState × List AdapterEffect × Bool :=
  (toolResults.filter fun r => r.toolCallId ∉ st.sentToolCallIds).foldl
    (fun acc r =>
      let step := phase1Step acc.1 r
      (step.1, acc.2.1 ++ step.2.1, acc.2.2 || step.2.2))
    (st, [], false)

/-- Opening tag of SYSTEM_REMINDER_RE. -/
def reminderOpenTag : List Char := "<system-reminder>".data

/-- Closing tag of SYSTEM_REMINDER_RE. -/
def reminderCloseTag : List Char := "</system-reminder>".data

/-- Literal after the leading whitespace in WRAPPED_USER_RE. -/
def wrappedIntroLit : List Char := "The user sent the following message:".data

/-- Literal before the trailing whitespace in WRAPPED_USER_RE. -/
def wrappedPleaseLit : List Char := "Please address this message and continue with your tasks.".data

/-- Suffix test of WRAPPED_USER_RE after the capture's closing newline:
backslash-n, then greedy whitespace, the Please literal, more whitespace,
and the end of the block body (the closing tag and the end anchor follow). -/
def wrappedTail (t : List Char) : Bool :=
  let t1 := t.dropWhile jsIsWs
  if List.isPrefixOf wrappedPleaseLit t1 then
    ((t1.drop wrappedPleaseLit.length).dropWhile jsIsWs).isEmpty
  else false

/-- Lazy capture search of WRAPPED_USER_RE: the shortest inner text followed
by a newline whose tail matches. -/
def findLazyInner : Nat → List Char → List Char → Option (List Char)
  | 0, _, _ => none
  | fuel + 1, acc, t =>
    match t with
    | [] => none
    | c :: rest =>
      if c = '\n' ∧ wrappedTail rest then some acc.reverse
      else findLazyInner fuel (c :: acc) rest

/-- The backslash-s-star-backslash-n of WRAPPED_USER_RE before the capture:
greedy, so the newline consumed is the latest one inside the whitespace run,
backtracking to earlier newlines when the rest of the pattern fails. -/
def wrappedFromStart (rest1 : List Char) : Option (List Char) :=
  let wsRun := rest1.takeWhile jsIsWs
  ((List.range wsRun.length).filter (fun k => wsRun[k]? = some '\n')).reverse.findSome?
    fun k =>
      let tail := rest1.drop (k + 1)
      findLazyInner (tail.length + 1) [] tail

/-- WRAPPED_USER_RE applied to one reminder block: body is the text between
the tags (the block found by the outer scan never contains a closing tag).
Returns the captured group 1. -/
def wrappedInner (body : List Char) : Option (List Char) :=
  let s1 := body.dropWhile jsIsWs
  if List.isPrefixOf wrappedIntroLit s1 then
    wrappedFromStart (s1.drop wrappedIntroLit.length)
  else none

/-- Global replacement of SYSTEM_REMINDER_RE with the callback of
stripSystemReminders: each match runs from an opening tag to the first
closing tag after it (lazy body) and is replaced by the trimmed wrapped
capture, or removed. An opening tag with no later closing tag matches
nowhere, and then no later occurrence can match either. -/
def replaceRemindersAux : Nat → List Char → List Char
  | 0, cs => cs
  | fuel + 1, cs =>
    match firstIndexOfAux reminderOpenTag 0 cs with
    | none => cs
    | some i =>
      let before := cs.take i
      let afterOpen := cs.drop (i + reminderOpenTag.length)
      match firstIndexOfAux reminderCloseTag 0 afterOpen with
      | none => cs
      | some j =>
        let body := afterOpen.take j
        let rest := afterOpen.drop (j + reminderCloseTag.length)
        let replacement := match wrappedInner body with
          | some inner => (jsTrim (String.mk inner)).data
          | none => []
        before ++ replacement ++ replaceRemindersAux fuel rest

/-- stripSystemReminders (src/provider/prompt.ts): replace every reminder
block, keeping the trimmed inner text of wrapped-user blocks, then trim. -/
def stripSystemReminders (value : String) : String :=
  jsTrim (String.mk (replaceRemindersAux (value.data.length + 1) value.data))

/-- A prompt content part; extractGoal reads only type and text. -/
structure PromptPart where
  type : String
  text : String
  deriving Repr, DecidableEq

/-- A prompt message: role, and content either as a plain string (system
messages) or as an array of parts. -/
structure PromptMessage where
  role : String
  content : String ⊕ List PromptPart
  deriving Repr, DecidableEq

/-- The per-message text of extractGoal: text parts, each stripped of
reminders, the non-empty ones joined with newline, trimmed. Non-array
content contributes nothing. -/
def messageGoalText (m : PromptMessage) : String :=
  let parts := match m.content with
    | .inl _ => []
    | .inr ps => ps
  jsTrim (String.intercalate "\n"
    (((parts.filter fun p => p.type = "text").map fun p =>
        stripSystemReminders p.text).filter fun s => s ≠ ""))

/-- The backwards loop of extractGoal over the reversed message list. -/
def extractGoalAux : List PromptMessage → String
  | [] => ""
  | m :: earlier =>
    if m.role ≠ "user" then extractGoalAux earlier
    else
      let text := messageGoalText m
      if text ≠ "" then text else extractGoalAux earlier

/-- extractGoal (src/provider/prompt.ts). -/
def extractGoal (prompt : List PromptMessage) : String :=
  extractGoalAux prompt.reverse

/-- C5: async queue contract. A push on a closed queue changes nothing and
delivers nothing (so a value pushed after close is never delivered), and the
closed flag is permanent under push and shift; a take with buffered values
returns the oldest (pushes buffer at the tail, takes consume the head), even
when closed; a take on a closed empty queue returns the end sentinel at
once; close wakes every suspended taker with the end sentinel. -/
theorem c5_async_queue_contract {T : Type} (q : AsyncQueue T) (v : T) (vs : List T) (tok : Nat) :
    (q.closed = true → q.push v = (q, [])) ∧
    ((q.push v).1.closed = q.closed ∧ (q.shift tok).1.closed = q.closed ∧
      (q.close).1.closed = true) ∧
    (q.closed = false → q.waiters = [] →
      q.push v = ({ q with values := q.values ++ [v] }, [])) ∧
    (q.values = v :: vs → q.shift tok = ({ q with values := vs }, .value v)) ∧
    (q.values = [] → q.closed = true → q.shift tok = (q, .ended)) ∧
    (q.close = ({ q with closed := true, waiters := [] }, q.waiters.map fun w => (w, none))) := by
  refine ⟨?_, ⟨?_, ?_, ?_⟩, ?_, ?_, ?_, ?_⟩
  · intro h
    simp [AsyncQueue.push, h]
  · unfold AsyncQueue.push
    split
    · rfl
    · split <;> rfl
  · unfold AsyncQueue.shift
    split
    · rfl
    · split <;> rfl
  · rfl
  · intro hclosed hwaiters
    simp [AsyncQueue.push, hclosed, hwaiters]
  · intro hvals
    simp [AsyncQueue.shift, hvals]
  · intro hvals hclosed
    simp [AsyncQueue.shift, hvals, hclosed]
  · rfl

/-- C5 witness: the contract evaluated on small concrete queues. -/
theorem c5_witness :
    (AsyncQueue.push (⟨[], [], true⟩ : AsyncQueue String) "x" = (⟨[], [], true⟩, [])) ∧
    (AsyncQueue.shift (⟨["a", "b"], [7], false⟩ : AsyncQueue String) 0 =
      (⟨["b"], [7], false⟩, .value "a")) ∧
    (AsyncQueue.shift (⟨[], [], true⟩ : AsyncQueue String) 0 = (⟨[], [], true⟩, .ended)) ∧
    (AsyncQueue.close (⟨[], [3, 5], false⟩ : AsyncQueue String) =
      (⟨[], [], true⟩, [(3, none), (5, none)])) := by
  refine ⟨?_, ?_, ?_, ?_⟩
  · exact (c5_async_queue_contract ⟨[], [], true⟩ "x" [] 0).1 rfl
  · exact (c5_async_queue_contract (⟨["a", "b"], [7], false⟩ : AsyncQueue String) "a" ["b"] 0).2.2.2.1 rfl
  · exact (c5_async_queue_contract (⟨[], [], true⟩ : AsyncQueue String) "x" [] 0).2.2.2.2.1 rfl rfl
  · exact (c5_async_queue_contract (⟨[], [3, 5], false⟩ : AsyncQueue String) "x" [] 0).2.2.2.2.2

/-- C4: a TOOL_CALL_APPROVAL_REQUIRED checkpoint never emits a queue close
and leaves pendingApproval set; a socket close with pendingApproval set
clears the flag and performs exactly one reconnectWithApproval on the same
queue; a socket close without it closes the queue. -/
theorem c4_tool_approval_and_reconnect (status ckptRaw : String) (queue : Nat) (st : SessionState) :
    (isToolApproval status = true →
      (∀ q, SessionEffect.closeQueue q ∉ (handleCheckpointAction status ckptRaw queue st).2) ∧
      (handleCheckpointAction status ckptRaw queue st).1.pendingApproval = true) ∧
    (st.pendingApproval = true →
      handleSocketClose queue st =
        ({ st with socketPresent := false, pendingApproval := false },
          [.reconnectWithApproval queue])) ∧
    (st.pendingApproval = false →
      handleSocketClose queue st =
        ({ st with socketPresent := false, queuePresent := false }, [.closeQueue queue])) := by
  refine ⟨?_, ?_, ?_⟩
  · intro h
    constructor
    · intro q
      simp only [handleCheckpointAction, h, if_true]
      split
      · simp
      · simp [List.mem_map]
    · simp [handleCheckpointAction, h]
  · intro h
    simp [handleSocketClose, h]
  · intro h
    simp [handleSocketClose, h]

/-- C4 witness: the three branches on concrete states. -/
theorem c4_witness :
    SessionEffect.closeQueue 0 ∉
      (handleCheckpointAction "TOOL_CALL_APPROVAL_REQUIRED" "" 0 (mkWorkflowSession none)).2 ∧
    (handleCheckpointAction "TOOL_CALL_APPROVAL_REQUIRED" "" 0 (mkWorkflowSession none)).1.pendingApproval = true ∧
    (handleSocketClose 5 { mkWorkflowSession none with pendingApproval := true }).2 =
      [.reconnectWithApproval 5] ∧
    (handleSocketClose 5 (mkWorkflowSession none)).2 = [.closeQueue 5] := by
  have h1 := c4_tool_approval_and_reconnect "TOOL_CALL_APPROVAL_REQUIRED" "" 0 (mkWorkflowSession none)
  have h2 := c4_tool_approval_and_reconnect "RUNNING" "" 5
    { mkWorkflowSession none with pendingApproval := true }
  have h3 := c4_tool_approval_and_reconnect "RUNNING" "" 5 (mkWorkflowSession none)
  exact ⟨(h1.1 rfl).1 0, (h1.1 rfl).2, by rw [h2.2.1 rfl], by rw [h3.2.2 rfl]⟩

/-- C7: a session constructed with an existing workflow id starts resumed;
while resumed, a checkpoint action overwrites the stored log with the new
snapshot, pushes no text deltas and clears resumed; once resumed is clear,
every checkpoint pushes exactly the extracted deltas (followed only by the
status-branch effects). -/
theorem c7_resumed_first_checkpoint (existingId status status2 ckptRaw ckptRaw2 : String)
    (queue queue2 : Nat) (st st2 : SessionState) :
    (mkWorkflowSession (some existingId)).resumed = true ∧
    (st.resumed = true →
      (handleCheckpointAction status ckptRaw queue st).1.checkpoint.uiChatLog =
        parseCheckpoint ckptRaw ∧
      (∀ q v, SessionEffect.pushDelta q v ∉ (handleCheckpointAction status ckptRaw queue st).2) ∧
      (handleCheckpointAction status ckptRaw queue st).1.resumed = false) ∧
    (st2.resumed = false →
      (handleCheckpointAction status2 ckptRaw2 queue2 st2).2 =
        (extractAgentTextDeltas ckptRaw2 st2.checkpoint).1.map (SessionEffect.pushDelta queue2) ++
          (if isToolApproval status2 then []
           else if isTurnComplete status2 then [.closeQueue queue2, .closeSocket]
           else [])) := by
  refine ⟨rfl, ?_, ?_⟩
  · intro h
    refine ⟨?_, ?_, ?_⟩
    · simp only [handleCheckpointAction, h, extractAgentTextDeltas]
      split
      · rfl
      · split <;> rfl
    · intro q v
      simp only [handleCheckpointAction, h]
      split
      · simp
      · split <;> simp
    · simp only [handleCheckpointAction, h]
      split
      · rfl
      · split <;> rfl
  · intro h
    simp only [handleCheckpointAction, h, Bool.false_eq_true, if_false]
    split
    · simp
    · split <;> simp

/-- A concrete checkpoint snapshot with one agent entry of content "Hel". -/
def ckptHel : String :=
  "\x7b\"channel_values\":\x7b\"ui_chat_log\":[\x7b\"message_type\":\"agent\",\"content\":\"Hel\"\x7d]\x7d\x7d"

/-- C7 witness: a resumed session absorbs the first concrete checkpoint
without pushing its delta and clears resumed; a non-resumed session emits
the delta. -/
theorem c7_witness :
    (mkWorkflowSession (some "42")).resumed = true ∧
    SessionEffect.pushDelta 0 "Hel" ∉
      (handleCheckpointAction "RUNNING" ckptHel 0 (mkWorkflowSession (some "42"))).2 ∧
    (handleCheckpointAction "RUNNING" ckptHel 0 (mkWorkflowSession (some "42"))).1.resumed = false ∧
    (handleCheckpointAction "RUNNING" ckptHel 0 (mkWorkflowSession none)).2 = [.pushDelta 0 "Hel"] := by
  have h1 := c7_resumed_first_checkpoint "42" "RUNNING" "RUNNING" ckptHel ckptHel
    0 0 (mkWorkflowSession (some "42")) (mkWorkflowSession none)
  refine ⟨h1.1, (h1.2.1 rfl).2.1 0 "Hel", (h1.2.1 rfl).2.2, ?_⟩
  rw [h1.2.2 rfl]
  rfl

/-- Spec-side rendering of the corrected C9 expiry formula, written from the
spec's words (§4.5) amended for the NaN case: a present but unparseable
rails timestamp forces the 5-minute default even when the workflow expiry is
finite, because Math.min propagates NaN. -/
def expirySpec (dateParse : String → Option ℚ) (now : ℚ) (v : DirectAccessResponse) : ℚ :=
  match v.gitlabRailsTokenExpiresAt with
  | some s =>
    match dateParse s with
    | none => now + 300000
    | some r =>
      match v.duoWorkflowServiceTokenExpiresAt with
      | some w => max (now + 1000) (min (w * 1000) r - 60000)
      | none => max (now + 1000) (r - 60000)
  | none =>
    match v.duoWorkflowServiceTokenExpiresAt with
    | some w => max (now + 1000) (w * 1000 - 60000)
    | none => now + 300000

/-- C9 counterexample: with now = 0, a finite workflow expiry of 10000 s and
a rails expiry string that does not parse, the code caches now + 5 min
(300000 ms), not the claimed min-minus-margin value 9940000 ms. -/
theorem c9_counterexample :
    readExpiry (fun _ => none) 0 ⟨some 10000, some "not-a-date"⟩ = 300000 ∧
    readExpiry (fun _ => none) 0 ⟨some 10000, some "not-a-date"⟩ ≠
      max ((0 : ℚ) + 1000) (10000 * 1000 - 60000) := by
  constructor
  · norm_num [readExpiry, jsMin]
  · norm_num [readExpiry, jsMin]

/-- C9 amended: a cached entry with expiresAt strictly after now is returned
without fetching; otherwise a fetch happens and the new expiry follows
readExpiry, which equals min(workflowExpiry*1000, parsed rails expiry) minus
the 60 s margin, bounded below by now+1 s, except that the now+5 min default
applies whenever that min is not a finite number — both when neither expiry
is present and when the rails string is present but unparseable (NaN), even
if the workflow expiry is finite. -/
theorem c9_token_expiry (dateParse : String → Option ℚ) (now : ℚ)
    (cached : Option CachedToken) (fetchResult : Option DirectAccessResponse)
    (c : CachedToken) (v : DirectAccessResponse) :
    (cached = some c → now < c.expiresAt →
      tokenGet dateParse now cached fetchResult = (some c.value, some c, false)) ∧
    ((cached = none ∨ (cached = some c ∧ ¬ now < c.expiresAt)) → fetchResult = some v →
      tokenGet dateParse now cached fetchResult =
        (some v, some ⟨v, readExpiry dateParse now v⟩, true)) ∧
    readExpiry dateParse now v = expirySpec dateParse now v := by
  refine ⟨?_, ?_, ?_⟩
  · intro hc hlt
    simp [tokenGet, hc, hlt]
  · intro hco hf
    have hfetch : tokenGet dateParse now cached fetchResult =
        (some v, some ⟨v, readExpiry dateParse now v⟩, true) := by
      rcases hco with hc | ⟨hc, hlt⟩
      · rw [hc]
        simp only [tokenGet, hf]
      · rw [hc]
        simp only [tokenGet, hf]
        rw [if_neg hlt]
    exact hfetch
  · rcases v with ⟨wf, rails⟩
    rcases wf with _ | w <;> rcases rails with _ | s
    · norm_num [readExpiry, expirySpec, jsMin]
    · cases hdp : dateParse s <;>
        norm_num [readExpiry, expirySpec, jsMin, hdp, WORKFLOW_TOKEN_EXPIRY_BUFFER_MS]
    · norm_num [readExpiry, expirySpec, jsMin, WORKFLOW_TOKEN_EXPIRY_BUFFER_MS]
    · cases hdp : dateParse s <;>
        norm_num [readExpiry, expirySpec, jsMin, hdp, WORKFLOW_TOKEN_EXPIRY_BUFFER_MS]

/-- C9 witness: the cache-hit path, the fetch path and the expiry formula on
concrete inputs. -/
theorem c9_witness :
    tokenGet (fun _ => none) 0 (some ⟨⟨none, none⟩, 5000⟩) (some ⟨some 10000, none⟩) =
      (some (⟨none, none⟩ : DirectAccessResponse), some ⟨⟨none, none⟩, 5000⟩, false) ∧
    tokenGet (fun _ => none) 0 none (some ⟨some 10000, none⟩) =
      (some (⟨some 10000, none⟩ : DirectAccessResponse),
        some ⟨⟨some 10000, none⟩, readExpiry (fun _ => none) 0 ⟨some 10000, none⟩⟩, true) ∧
    readExpiry (fun _ => none) 0 ⟨some 10000, some "not-a-date"⟩ =
      expirySpec (fun _ => none) 0 ⟨some 10000, some "not-a-date"⟩ := by
  have h1 := c9_token_expiry (fun _ => none) 0 (some ⟨⟨none, none⟩, 5000⟩)
    (some ⟨some 10000, none⟩) ⟨⟨none, none⟩, 5000⟩ ⟨some 10000, none⟩
  have h2 := c9_token_expiry (fun _ => none) 0 none
    (some ⟨some 10000, none⟩) ⟨⟨none, none⟩, 5000⟩ ⟨some 10000, none⟩
  have h3 := c9_token_expiry (fun _ => none) 0 none none ⟨⟨none, none⟩, 5000⟩
    ⟨some 10000, some "not-a-date"⟩
  exact ⟨h1.1 rfl (by norm_num), h2.2.1 (Or.inl rfl) rfl, h3.2.2⟩

/-- Structural form of the extractAgentTextDeltas loop: walk the new log,
peeling one previous entry per index. -/
def deltasZip : List UiChatLogEntry → List UiChatLogEntry → List String
  | [], _ => []
  | item :: rest, prev => entryDeltas prev.head? item ++ deltasZip rest prev.tail

/-- The index-based loop of extractAgentTextDeltas equals the structural
walk. -/
theorem extract_deltas_eq_deltasZip (raw : String) (st : CheckpointState) :
    (extractAgentTextDeltas raw st).1 = deltasZip (parseCheckpoint raw) st.uiChatLog := by
  show (List.range (parseCheckpoint raw).length).flatMap _ = _
  generalize parseCheckpoint raw = next
  induction next generalizing st with
  | nil => rfl
  | cons item rest ih =>
    rw [List.length_cons, List.range_succ_eq_map, List.flatMap_cons, List.flatMap_map]
    show _ ++ _ = entryDeltas st.uiChatLog.head? item ++ deltasZip rest st.uiChatLog.tail
    congr 1
    · rw [List.getElem?_cons_zero, ← List.head?_eq_getElem?]
    · have := ih { st with uiChatLog := st.uiChatLog.tail }
      refine Eq.trans ?_ this
      apply List.flatMap_congr ?_
      intro i _
      simp only [Function.comp, List.getElem?_cons_succ, List.getElem?_tail]

/-- With an empty previous log, every entry diffs against none. -/
theorem deltasZip_nil_prev (next : List UiChatLogEntry) :
    deltasZip next [] = next.flatMap (fun item => entryDeltas none item) := by
  induction next with
  | nil => rfl
  | cons item rest ih => simpa [deltasZip] using ih

/-- Against no previous entry, an entry contributes its full content exactly
when it is agent-typed with non-empty content. -/
theorem entryDeltas_none (item : UiChatLogEntry) :
    entryDeltas none item =
      if item.message_type = "agent" ∧ item.content ≠ "" then [item.content] else [] := by
  simp only [entryDeltas]
  by_cases h1 : item.message_type = "agent" <;> by_cases h2 : item.content = "" <;>
    simp [h1, h2]

/-- C10: an empty input, a JSON.parse failure, or a parse without an array at
channel_values.ui_chat_log yields no deltas and overwrites the stored log
with the empty list (processedRequestIndices untouched); from that emptied
state, the next checkpoint re-emits the full content of every agent entry
with non-empty content as fresh deltas. -/
theorem c10_parse_failure_resets (raw raw2 : String) (st : CheckpointState)
    (h : raw = "" ∨ jsonParse raw = none ∨
      (∀ j l, jsonParse raw = some j →
        (j.getField "channel_values").bind (fun cv => cv.getField "ui_chat_log") ≠
          some (.arr l))) :
    extractAgentTextDeltas raw st = ([], { st with uiChatLog := [] }) ∧
    (extractAgentTextDeltas raw2 { st with uiChatLog := [] }).1 =
      ((parseCheckpoint raw2).filter fun e =>
        decide (e.message_type = "agent" ∧ e.content ≠ "")).map (fun e => e.content) := by
  have hparse : parseCheckpoint raw = [] := by
    unfold parseCheckpoint
    split
    · rfl
    · rename_i hne
      rcases h with h | h | h
      · exact absurd h hne
      · simp [h]
      · cases hj : jsonParse raw with
        | none => rfl
        | some j =>
          simp only []
          cases hb : (j.getField "channel_values").bind (fun cv => cv.getField "ui_chat_log") with
          | none => simp [hb]
          | some v =>
            cases v with
            | arr l => exact absurd hb (h j l hj)
            | null => simp [hb]
            | bool b => simp [hb]
            | num q => simp [hb]
            | str s => simp [hb]
            | obj fs => simp [hb]
  constructor
  · show (_, _) = _
    rw [hparse]
    rfl
  · rw [extract_deltas_eq_deltasZip]
    show deltasZip (parseCheckpoint raw2) [] = _
    rw [deltasZip_nil_prev]
    induction parseCheckpoint raw2 with
    | nil => rfl
    | cons item rest ih =>
      rw [List.flatMap_cons, entryDeltas_none, List.filter_cons, ih]
      by_cases hc : item.message_type = "agent" ∧ item.content ≠ "" <;> simp [hc]

/-- C10 witness: an invalid JSON snapshot wipes a non-empty stored log, and
the next concrete checkpoint re-emits the full agent content. -/
theorem c10_witness :
    extractAgentTextDeltas "[unclosed" ⟨[⟨"agent", "old", none, none⟩], [3]⟩ =
      ([], ⟨[], [3]⟩) ∧
    (extractAgentTextDeltas ckptHel ⟨[], [3]⟩).1 = ["Hel"] := by
  have h := c10_parse_failure_resets "[unclosed" ckptHel
    ⟨[⟨"agent", "old", none, none⟩], [3]⟩ (Or.inr (Or.inl rfl))
  exact ⟨h.1, by rw [h.2]; rfl⟩

/-- The toolCallId of every tool-call part, in emission order. -/
def toolCallIds (l : List StreamPart) : List String :=
  l.filterMap fun p => match p with
    | .toolCall id _ _ => some id
    | _ => none

/-- C3: when the events of a turn are text deltas followed by a tool request
whose mapping is scalar, the stream emits exactly one tool-call part, its id
the Service request id, immediately followed by finish(tool-calls) as the
last part, and every event after the tool request is ignored (the stream is
closed). Stated for any hasText flag; a turn starts with hasText = false. -/
theorem c3_scalar_tool_call (pre rest rest2 : List SessionEvent)
    (textId requestId toolName : String) (args : List (String × Json))
    (st : ModelState) (call : MappedToolCall) (hasText : Bool)
    (hpre : ∀ e ∈ pre, ∃ v, e = SessionEvent.textDelta v)
    (hmap : mapDuoToolRequest toolName args = .inl call) :
    (∃ front,
      (consumeEvents textId (pre ++ .toolRequest requestId toolName args :: rest) hasText st).1 =
        front ++ [.toolCall requestId call.toolName (jsonStringify STRINGIFY_FUEL (.obj call.args)),
          .finishToolCalls] ∧
      toolCallIds front = []) ∧
    toolCallIds
      (consumeEvents textId (pre ++ .toolRequest requestId toolName args :: rest) hasText st).1 =
      [requestId] ∧
    consumeEvents textId (pre ++ .toolRequest requestId toolName args :: rest) hasText st =
      consumeEvents textId (pre ++ .toolRequest requestId toolName args :: rest2) hasText st := by
  induction pre generalizing hasText with
  | nil =>
    have hout : ∀ (r : List SessionEvent),
        (consumeEvents textId ([] ++ .toolRequest requestId toolName args :: r) hasText st).1 =
        (if hasText then [StreamPart.textEnd textId] else []) ++
          [.toolInputStart requestId call.toolName,
           .toolInputDelta requestId (jsonStringify STRINGIFY_FUEL (.obj call.args)),
           .toolInputEnd requestId,
           .toolCall requestId call.toolName (jsonStringify STRINGIFY_FUEL (.obj call.args)),
           .finishToolCalls] := by
      intro r
      simp only [List.nil_append, consumeEvents, handleToolRequest, hmap]
    refine ⟨⟨(if hasText then [StreamPart.textEnd textId] else []) ++
      [.toolInputStart requestId call.toolName,
       .toolInputDelta requestId (jsonStringify STRINGIFY_FUEL (.obj call.args)),
       .toolInputEnd requestId], ?_, ?_⟩, ?_, ?_⟩
    · rw [hout rest]
      simp
    · cases hasText <;> rfl
    · rw [hout rest]
      cases hasText <;> rfl
    · simp only [List.nil_append, consumeEvents]
  | cons e pre' ih =>
    obtain ⟨v, rfl⟩ := hpre e (List.mem_cons_self e pre')
    have hpre' : ∀ e ∈ pre', ∃ v, e = SessionEvent.textDelta v :=
      fun e he => hpre e (List.mem_cons_of_mem _ he)
    by_cases hv : v = ""
    · have heq : ∀ (r : List SessionEvent) (b : Bool),
          consumeEvents textId ((SessionEvent.textDelta v :: pre') ++
            .toolRequest requestId toolName args :: r) b st =
          consumeEvents textId (pre' ++ .toolRequest requestId toolName args :: r) b st := by
        intro r b
        simp only [List.cons_append, consumeEvents]
        rw [if_pos hv]
        rfl
      rw [heq rest hasText, heq rest2 hasText]
      exact ih hasText hpre'
    · obtain ⟨⟨front, hfront, hids⟩, htot, hindep⟩ := ih true hpre'
      have heq : ∀ (r : List SessionEvent) (b : Bool),
          consumeEvents textId ((SessionEvent.textDelta v :: pre') ++
            .toolRequest requestId toolName args :: r) b st =
          ((if b then [] else [StreamPart.textStart textId]) ++ StreamPart.textDelta textId v ::
            (consumeEvents textId (pre' ++ .toolRequest requestId toolName args :: r) true st).1,
           (consumeEvents textId (pre' ++ .toolRequest requestId toolName args :: r) true st).2) := by
        intro r b
        simp only [List.cons_append, consumeEvents]
        rw [if_neg hv]
        cases b <;> rfl
      refine ⟨⟨(if hasText then [] else [StreamPart.textStart textId]) ++
          StreamPart.textDelta textId v :: front, ?_, ?_⟩, ?_, ?_⟩
      · rw [heq rest hasText]
        simp [hfront]
      · cases hasText <;> simp_all [toolCallIds]
      · rw [heq rest hasText]
        cases hasText <;> simp_all [toolCallIds]
      · rw [heq rest hasText, heq rest2 hasText, hindep]

/-- C3 witness: a text delta followed by a concrete scalar list_dir request
emits one tool-call with the request id, then finish(tool-calls), and the
events after the request do not change the output. -/
theorem c3_witness :
    toolCallIds
      (consumeEvents "T" [.textDelta "hi",
        .toolRequest "R1" "list_dir" [("directory", .str "src")]] false ⟨[], [], []⟩).1 = ["R1"] ∧
    consumeEvents "T" [.textDelta "hi",
        .toolRequest "R1" "list_dir" [("directory", .str "src")], .textDelta "ignored"]
        false ⟨[], [], []⟩ =
      consumeEvents "T" [.textDelta "hi",
        .toolRequest "R1" "list_dir" [("directory", .str "src")]] false ⟨[], [], []⟩ := by
  have h1 := c3_scalar_tool_call [.textDelta "hi"] [] [.textDelta "ignored"] "T" "R1" "list_dir"
    [("directory", .str "src")] ⟨[], [], []⟩ ⟨"read", [("filePath", .str "src")]⟩ false
    (by intro e he; exact ⟨"hi", by simpa using he⟩) rfl
  have h2 := c3_scalar_tool_call [.textDelta "hi"] [.textDelta "ignored"] [] "T" "R1" "list_dir"
    [("directory", .str "src")] ⟨[], [], []⟩ ⟨"read", [("filePath", .str "src")]⟩ false
    (by intro e he; exact ⟨"hi", by simpa using he⟩) rfl
  exact ⟨h1.2.1, h2.2.2⟩

/-- isPrefixOf as existence of a tail. -/
theorem isPrefixOf_eq_true_iff (p l : List Char) :
    List.isPrefixOf p l = true ↔ ∃ t, l = p ++ t := by
  rw [ List.isPrefixOf_iff_prefix]
  constructor
  · rintro ⟨t, ht⟩
    exact ⟨t, ht.symm⟩
  · rintro ⟨t, rfl⟩
    exact ⟨t, rfl⟩

/-- A pattern no longer than the left part of an append tests the same with
or without the right part. -/
theorem isPrefixOf_append_left (p x y : List Char) (h : p.length ≤ x.length) :
    List.isPrefixOf p (x ++ y) = List.isPrefixOf p x := by
  cases hx : List.isPrefixOf p x with
  | true =>
    obtain ⟨t, rfl⟩ := (isPrefixOf_eq_true_iff p x).mp hx
    exact (isPrefixOf_eq_true_iff p (p ++ t ++ y)).mpr ⟨t ++ y, by simp⟩
  | false =>
    cases hxy : List.isPrefixOf p (x ++ y) with
    | false => rfl
    | true =>
      exfalso
      obtain ⟨t, ht⟩ := (isPrefixOf_eq_true_iff p (x ++ y)).mp hxy
      have h3 : List.take x.length (p ++ t) = p ++ t.take (x.length - p.length) := by
        rw [show x.length = p.length + (x.length - p.length) from by omega, List.take_append,
          Nat.add_sub_cancel_left]
      have hx2 : x = p ++ t.take (x.length - p.length) := by
        calc x = List.take x.length (x ++ y) := (List.take_left x y).symm
          _ = List.take x.length (p ++ t) := by rw [ht]
          _ = p ++ t.take (x.length - p.length) := h3
      rw [(isPrefixOf_eq_true_iff p x).mpr ⟨t.take (x.length - p.length), hx2⟩] at hx
      exact Bool.true_eq_false.mp hx

/-- Starting the scan at offset i shifts the reported position by i. -/
theorem firstIndexOfAux_shift (pat : List Char) :
    ∀ (cs : List Char) (i : Nat),
      firstIndexOfAux pat i cs = (firstIndexOfAux pat 0 cs).map (· + i) := by
  intro cs
  induction cs with
  | nil =>
    intro i
    simp only [firstIndexOfAux]
    split
    · simp
    · simp
  | cons c rest ih =>
    intro i
    simp only [firstIndexOfAux]
    split
    · simp
    · rw [ih (i + 1), ih 1]
      cases firstIndexOfAux pat 0 rest
      · simp
      · simp
        omega

/-- Soundness of the index scan: a hit is a prefix position and all earlier
positions miss. -/
theorem firstIndexOfAux_found_spec (pat : List Char) :
    ∀ (cs : List Char) (j : Nat), firstIndexOfAux pat 0 cs = some j →
      List.isPrefixOf pat (cs.drop j) = true ∧
        ∀ k < j, List.isPrefixOf pat (cs.drop k) = false := by
  intro cs
  induction cs with
  | nil =>
    intro j h
    simp only [firstIndexOfAux] at h
    split at h
    · rename_i hpat
      obtain rfl : 0 = j := Option.some_injective _ h
      refine ⟨?_, by omega⟩
      rw [List.isEmpty_iff] at hpat
      subst hpat
      rfl
    · exact absurd h (by simp)
  | cons c rest ih =>
    intro j h
    simp only [firstIndexOfAux] at h
    split at h
    · rename_i hpre
      obtain rfl : 0 = j := Option.some_injective _ h
      exact ⟨hpre, by omega⟩
    · rename_i hpre
      rw [firstIndexOfAux_shift pat rest 1] at h
      cases hr : firstIndexOfAux pat 0 rest with
      | none => rw [hr] at h; exact absurd h (by simp)
      | some j' =>
        rw [hr] at h
        obtain rfl : j' + 1 = j := Option.some_injective _ h
        obtain ⟨h1, h2⟩ := ih j' hr
        refine ⟨h1, ?_⟩
        intro k hk
        cases k with
        | zero =>
          rw [List.drop_zero]
          exact Bool.eq_false_iff.mpr hpre
        | succ k' => exact h2 k' (by omega)

/-- Completeness of the index scan: a prefix position with all earlier
positions missing is reported. -/
theorem firstIndexOfAux_of_found (pat : List Char) (hp : ¬ pat.isEmpty) :
    ∀ (cs : List Char) (j : Nat),
      List.isPrefixOf pat (cs.drop j) = true →
      (∀ k < j, List.isPrefixOf pat (cs.drop k) = false) →
      firstIndexOfAux pat 0 cs = some j := by
  intro cs
  induction cs with
  | nil =>
    intro j hpre _
    exfalso
    obtain ⟨t, ht⟩ := (isPrefixOf_eq_true_iff pat _).mp hpre
    rw [List.drop_nil] at ht
    rw [List.isEmpty_iff] at hp
    exact hp (List.append_eq_nil.mp ht.symm).1
  | cons c rest ih =>
    intro j hpre hmin
    cases j with
    | zero =>
      rw [List.drop_zero] at hpre
      simp only [firstIndexOfAux]
      rw [if_pos hpre]
    | succ j' =>
      have h0 : List.isPrefixOf pat (c :: rest) = false := by
        simpa using hmin 0 (Nat.succ_pos j')
      simp only [firstIndexOfAux, h0]
      rw [if_neg (by simp [h0]), firstIndexOfAux_shift pat rest 1,
        ih j' hpre (fun k hk => by simpa using hmin (k + 1) (by omega))]
      rfl

/-- When "_sub_" first occurs in requestId ++ "_sub_" right after requestId,
it also first occurs there in every sub-ID requestId ++ "_sub_" ++ t. -/
theorem jsIndexOf_sub_id (requestId t : String)
    (hsub : jsIndexOf (requestId ++ "_sub_") "_sub_" = some requestId.data.length) :
    jsIndexOf (requestId ++ "_sub_" ++ t) "_sub_" = some requestId.data.length := by
  obtain ⟨h1, h2⟩ := firstIndexOfAux_found_spec "_sub_".data _ _ hsub
  have h5 : ("_sub_".data).length = 5 := rfl
  have hlen : (requestId.data ++ "_sub_".data).length = requestId.data.length + 5 := by
    rw [List.length_append, h5]
  apply firstIndexOfAux_of_found "_sub_".data (by decide)
  · show List.isPrefixOf "_sub_".data ((requestId.data ++ "_sub_".data ++ t.data).drop
      requestId.data.length) = true
    rw [List.drop_append_of_le_length (by rw [hlen]; omega)]
    rw [List.drop_left]
    exact (isPrefixOf_eq_true_iff _ _).mpr ⟨t.data, rfl⟩
  · intro k hk
    show List.isPrefixOf "_sub_".data ((requestId.data ++ "_sub_".data ++ t.data).drop k) = false
    rw [List.drop_append_of_le_length (by rw [hlen]; omega)]
    rw [isPrefixOf_append_left _ _ _ (by rw [List.length_drop, hlen, h5]; omega)]
    exact h2 k hk

/-- mapGet after mapSet on the same key. -/
theorem mapGet_mapSet_self {α : Type} (k : String) (v : α) :
    ∀ (m : List (String × α)), mapGet (mapSet m k v) k = some v := by
  intro m
  induction m with
  | nil => simp [mapSet, mapGet]
  | cons p rest ih =>
    by_cases hp : p.1 = k
    · have hany : (p :: rest).any (fun q => q.1 = k) = true := by simp [hp]
      rw [mapSet, if_pos hany]
      simp [mapGet, hp]
    · by_cases hany2 : rest.any (fun q => q.1 = k) = true
      · have hany : (p :: rest).any (fun q => q.1 = k) = true := by simp [hany2]
        rw [mapSet, if_pos hany]
        simp only [List.map_cons, if_neg hp, mapGet, List.find?]
        rw [show (decide (p.1 = k)) = false from by simp [hp]]
        rw [mapSet, if_pos hany2] at ih
        exact ih
      · have hany : ¬ (p :: rest).any (fun q => q.1 = k) = true := by simp_all
        rw [mapSet, if_neg hany]
        simp only [List.cons_append, mapGet, List.find?]
        rw [show (decide (p.1 = k)) = false from by simp [hp]]
        rw [mapSet, if_neg hany2] at ih
        exact ih

/-- Keys after mapSet: unchanged when present, appended otherwise. -/
theorem mapSet_keys {α : Type} (m : List (String × α)) (k : String) (v : α) :
    (mapSet m k v).map Prod.fst =
      if k ∈ m.map Prod.fst then m.map Prod.fst else m.map Prod.fst ++ [k] := by
  have hiff : (m.any (fun p => p.1 = k) = true) ↔ k ∈ m.map Prod.fst := by
    simp only [List.any_eq_true, List.mem_map, decide_eq_true_eq]
  unfold mapSet
  split
  · rename_i hany
    rw [if_pos (hiff.mp hany), List.map_map]
    apply List.map_congr_left
    intro p _
    by_cases hp : p.1 = k
    · simp [hp]
    · simp [hp]
  · rename_i hany
    rw [if_neg (fun hm => hany (hiff.mpr hm))]
    simp

/-- mapSet with a fresh key appends. -/
theorem mapSet_fresh {α : Type} (m : List (String × α)) (k : String) (v : α)
    (h : k ∉ m.map Prod.fst) : mapSet m k v = m ++ [(k, v)] := by
  unfold mapSet
  rw [if_neg]
  intro hany
  rcases List.any_eq_true.mp hany with ⟨p, hp, he⟩
  exact h (List.mem_map.mpr ⟨p, hp, by simpa using he⟩)

/-- First-occurrence dedup of a key sequence relative to already-seen keys. -/
def dedupKeysAux (seen : List String) : List String → List String
  | [] => []
  | k :: ks => if k ∈ seen then dedupKeysAux seen ks else k :: dedupKeysAux (seen ++ [k]) ks

/-- Keys of a mapSet fold: the accumulator's keys followed by the first
occurrences of the new keys. -/
theorem foldl_mapSet_keys {α : Type} (pairs : List (String × α)) :
    ∀ (acc : List (String × α)),
      ((pairs.foldl (fun a p => mapSet a p.1 p.2) acc).map Prod.fst) =
        acc.map Prod.fst ++ dedupKeysAux (acc.map Prod.fst) (pairs.map Prod.fst) := by
  induction pairs with
  | nil =>
    intro acc
    simp [dedupKeysAux]
  | cons p ps ih =>
    intro acc
    simp only [List.foldl_cons, List.map_cons, dedupKeysAux]
    by_cases hk : p.1 ∈ acc.map Prod.fst
    · rw [if_pos hk, ih (mapSet acc p.1 p.2), mapSet_keys, if_pos hk]
    · rw [if_neg hk, ih (mapSet acc p.1 p.2), mapSet_keys, if_neg hk, List.append_assoc]
      rfl

/-- The dedup result has no duplicates and avoids the seen keys. -/
theorem dedupKeysAux_nodup : ∀ (ks seen : List String),
    (dedupKeysAux seen ks).Nodup ∧ ∀ a ∈ dedupKeysAux seen ks, a ∉ seen := by
  intro ks
  induction ks with
  | nil => exact fun seen => ⟨List.nodup_nil, by simp [dedupKeysAux]⟩
  | cons k ks ih =>
    intro seen
    simp only [dedupKeysAux]
    split
    · exact ih seen
    · rename_i hk
      obtain ⟨hnd, hmem⟩ := ih (seen ++ [k])
      refine ⟨List.nodup_cons.mpr ⟨?_, hnd⟩, ?_⟩
      · intro hc
        exact hmem k hc (by simp)
      · intro a ha
        rcases List.mem_cons.mp ha with rfl | ha
        · exact hk
        · intro hc
          exact hmem a ha (by simp [hc])

/-- Membership in the dedup result. -/
theorem dedupKeysAux_mem : ∀ (ks seen : List String) (a : String),
    a ∈ dedupKeysAux seen ks ↔ a ∈ ks ∧ a ∉ seen := by
  intro ks
  induction ks with
  | nil => simp [dedupKeysAux]
  | cons k ks ih =>
    intro seen a
    simp only [dedupKeysAux]
    split
    · rename_i hk
      rw [ih seen a]
      constructor
      · rintro ⟨ha, hs⟩
        exact ⟨List.mem_cons_of_mem _ ha, hs⟩
      · rintro ⟨ha, hs⟩
        rcases List.mem_cons.mp ha with rfl | ha
        · exact absurd hk hs
        · exact ⟨ha, hs⟩
    · rename_i hk
      constructor
      · intro ha
        rcases List.mem_cons.mp ha with rfl | ha
        · exact ⟨List.mem_cons_self a ks, hk⟩
        · obtain ⟨h1, h2⟩ := (ih (seen ++ [k]) a).mp ha
          refine ⟨List.mem_cons_of_mem _ h1, fun hc => h2 (by simp [hc])⟩
      · rintro ⟨ha, hs⟩
        rcases List.mem_cons.mp ha with rfl | ha
        · exact List.mem_cons_self a _
        · by_cases hak : a = k
          · subst hak
            exact List.mem_cons_self a _
          · exact List.mem_cons_of_mem _
              ((ih (seen ++ [k]) a).mpr ⟨ha, by simp [hs, hak]⟩)

/-- On a duplicate-free unseen key sequence, dedup is the identity. -/
theorem dedupKeysAux_of_nodup : ∀ (ks seen : List String),
    ks.Nodup → (∀ a ∈ ks, a ∉ seen) → dedupKeysAux seen ks = ks := by
  intro ks
  induction ks with
  | nil => intro seen _ _; rfl
  | cons k ks ih =>
    intro seen hnd hout
    simp only [dedupKeysAux]
    rw [if_neg (hout k (List.mem_cons_self k ks))]
    congr 1
    apply ih (seen ++ [k]) (List.nodup_cons.mp hnd).2
    intro a ha hc
    rcases List.mem_append.mp hc with hc | hc
    · exact hout a (List.mem_cons_of_mem _ ha) hc
    · rw [List.mem_singleton.mp hc] at ha
      exact (List.nodup_cons.mp hnd).1 ha

/-- The keys of a built aggregate are the first occurrences of the fallback
labels. -/
theorem buildAggregate_keys (g : MultiCallGroup) :
    (buildAggregate g).map Prod.fst =
      dedupKeysAux [] (fallbackLabels g.labels g.subIds.length) := by
  have h1 : buildAggregate g =
      ((List.range g.subIds.length).map
        (fun i => (fallbackLabel g.labels i, aggValue g i))).foldl
        (fun a p => mapSet a p.1 p.2) [] := by
    rw [List.foldl_map]
    rfl
  rw [h1, foldl_mapSet_keys]
  simp only [List.map_nil, List.nil_append, List.map_map]
  rfl

/-- The group state after collecting one sub-result. -/
def collectInto (g : MultiCallGroup) (r : ToolResult) : MultiCallGroup :=
  { g with collected := mapSet g.collected r.toolCallId (r.error.getD r.output) }

/-- The model state after recording one collected sub-result of requestId. -/
def collectState (st : ModelState) (requestId : String) (g : MultiCallGroup)
    (r : ToolResult) : ModelState :=
  { st with
    multiCallGroups := mapSet st.multiCallGroups requestId (collectInto g r)
    sentToolCallIds := setAdd st.sentToolCallIds r.toolCallId
    pendingToolRequests := listDelete st.pendingToolRequests r.toolCallId }

/-- The Phase-1 fold on results covering exactly the sub-IDs of one recorded
group: nothing is sent until the last sub-result arrives, then exactly one
aggregate is sent for the original request id, built from the group's labels
and sub-IDs. -/
theorem phase1_aggregate_loop (requestId : String) (N : Nat)
    (hsub : jsIndexOf (requestId ++ "_sub_") "_sub_" = some requestId.data.length) :
    ∀ (rs : List ToolResult) (st : ModelState) (g : MultiCallGroup)
      (acc : List AdapterEffect) (flag : Bool),
      mapGet st.multiCallGroups requestId = some g →
      g.subIds = (List.range N).map (fun i => requestId ++ "_sub_" ++ toString i) →
      (g.collected.map Prod.fst ++ rs.map (fun r => r.toolCallId)).Perm
        ((List.range N).map (fun i => requestId ++ "_sub_" ++ toString i)) →
      (g.collected.map Prod.fst ++ rs.map (fun r => r.toolCallId)).Nodup →
      rs ≠ [] →
      ∃ gF stF,
        rs.foldl (fun acc r =>
            let step := phase1Step acc.1 r
            (step.1, acc.2.1 ++ step.2.1, acc.2.2 || step.2.2)) (st, acc, flag) =
          (stF, acc ++ [.sendToolResult requestId
            (jsonStringify STRINGIFY_FUEL (.obj (buildAggregate gF))) none], true) ∧
        gF.labels = g.labels ∧ gF.subIds = g.subIds := by
  intro rs
  induction rs with
  | nil => intro st g acc flag _ _ _ _ hne; exact absurd rfl hne
  | cons r rest ih =>
    intro st g acc flag hget hsubIds hperm hnodup _
    have hmemL : r.toolCallId ∈
        (g.collected.map Prod.fst ++ (r :: rest).map (fun r => r.toolCallId)) := by
      simp
    have hmemR := hperm.mem_iff.mp hmemL
    obtain ⟨i, _, hid⟩ := List.mem_map.mp hmemR
    have hidx : jsIndexOf r.toolCallId "_sub_" = some requestId.data.length := by
      rw [← hid]
      exact jsIndexOf_sub_id requestId (toString i) hsub
    have horig : String.mk (r.toolCallId.data.take requestId.data.length) = requestId := by
      rw [← hid]
      show String.mk (((requestId.data ++ "_sub_".data) ++ (toString i).data).take
        requestId.data.length) = requestId
      rw [List.append_assoc, List.take_left]
    have hfreshKey : r.toolCallId ∉ g.collected.map Prod.fst := by
      intro hc
      obtain ⟨-, -, hdisj⟩ := List.nodup_append.mp hnodup
      exact hdisj hc (by simp)
    have hcolLen : g.collected.length + rest.length + 1 = N := by
      have hL := hperm.length_eq
      simp at hL
      omega
    have hsubLen : g.subIds.length = N := by
      rw [hsubIds]
      simp
    have hgroup1 :
        mapSet g.collected r.toolCallId (r.error.getD r.output) =
          g.collected ++ [(r.toolCallId, r.error.getD r.output)] :=
      mapSet_fresh _ _ _ hfreshKey
    have hcol1Len : (collectInto g r).collected.length = g.collected.length + 1 := by
      show (mapSet g.collected r.toolCallId (r.error.getD r.output)).length = _
      rw [hgroup1, List.length_append, List.length_singleton]
    have hstepBase : phase1Step st r =
        (if (collectInto g r).collected.length = (collectInto g r).subIds.length then
           ({ collectState st requestId g r with
               multiCallGroups := mapDelete (collectState st requestId g r).multiCallGroups
                 requestId
               pendingToolRequests := listDelete
                 (collectState st requestId g r).pendingToolRequests requestId },
            [.sendToolResult requestId
              (jsonStringify STRINGIFY_FUEL (.obj (buildAggregate (collectInto g r)))) none],
            true)
         else (collectState st requestId g r, [], false)) := by
      simp only [phase1Step, hidx, horig, hget]
      rfl
    cases rest with
    | nil =>
      have htrig : (collectInto g r).collected.length = (collectInto g r).subIds.length := by
        rw [hcol1Len]
        show _ = g.subIds.length
        rw [hsubLen]
        simp at hcolLen
        omega
      refine ⟨collectInto g r,
        { collectState st requestId g r with
            multiCallGroups := mapDelete (collectState st requestId g r).multiCallGroups requestId
            pendingToolRequests :=
              listDelete (collectState st requestId g r).pendingToolRequests requestId },
        ?_, rfl, rfl⟩
      simp only [List.foldl_cons, List.foldl_nil, hstepBase]
      rw [if_pos htrig]
      simp
    | cons r2 rest2 =>
      have hnotrig :
          ¬ ((collectInto g r).collected.length = (collectInto g r).subIds.length) := by
        rw [hcol1Len]
        show ¬ (_ = g.subIds.length)
        rw [hsubLen]
        simp at hcolLen
        omega
      have hstep : phase1Step st r = (collectState st requestId g r, [], false) := by
        rw [hstepBase, if_neg hnotrig]
      simp only [List.foldl_cons, hstep, List.append_nil, Bool.or_false]
      have hcol1keys : (collectInto g r).collected.map Prod.fst =
          g.collected.map Prod.fst ++ [r.toolCallId] := by
        show (mapSet g.collected r.toolCallId (r.error.getD r.output)).map Prod.fst = _
        rw [hgroup1]
        simp
      obtain ⟨gF, stF, hfold, hlab, hsubs⟩ := ih (collectState st requestId g r)
        (collectInto g r) acc flag
        (mapGet_mapSet_self _ _ _)
        hsubIds
        (by rw [hcol1keys, List.append_assoc]
            simpa using hperm)
        (by rw [hcol1keys, List.append_assoc]
            simpa using hnodup)
        (by simp)
      exact ⟨gF, stF, hfold, hlab, hsubs⟩

/-- toolCallIds distributes over append. -/
theorem toolCallIds_append (a b : List StreamPart) :
    toolCallIds (a ++ b) = toolCallIds a ++ toolCallIds b :=
  List.filterMap_append a b _

/-- The expansion body contributes exactly one tool-call id per sub-call. -/
theorem toolCallIds_body (l : List (MappedToolCall × String)) :
    toolCallIds (l.flatMap fun cs =>
      [.toolInputStart cs.2 cs.1.toolName,
       .toolInputDelta cs.2 (jsonStringify STRINGIFY_FUEL (.obj cs.1.args)),
       .toolInputEnd cs.2,
       .toolCall cs.2 cs.1.toolName (jsonStringify STRINGIFY_FUEL (.obj cs.1.args))]) =
      l.map (fun cs => cs.2) := by
  induction l with
  | nil => rfl
  | cons cs l ih =>
    rw [List.flatMap_cons, toolCallIds_append, ih]
    rfl

/-- C2 (amended): a tool request mapping to N expanded calls emits exactly N
tool-call parts with ids requestId_sub_0 .. requestId_sub_(N-1); once the
host returns one result per sub-ID (in any order), Phase 1 sends exactly one
aggregate for the original request id, a JSON object keyed by the distinct
fallback labels captured at expansion time — of size N when those labels are
pairwise distinct. Requires "_sub_" to first occur in requestId ++ "_sub_"
right after requestId (sub-ID parsing is positional). -/
theorem c2_multi_call_expansion (textId requestId toolName : String)
    (args : List (String × Json)) (st0 : ModelState) (calls : List MappedToolCall)
    (hasText : Bool) (rs : List ToolResult)
    (hmap : mapDuoToolRequest toolName args = .inr calls)
    (hcalls : calls ≠ [])
    (hsub : jsIndexOf (requestId ++ "_sub_") "_sub_" = some requestId.data.length)
    (hfresh : ∀ r ∈ rs, r.toolCallId ∉ st0.sentToolCallIds)
    (hperm : (rs.map (fun r => r.toolCallId)).Perm
      ((List.range calls.length).map (fun i => requestId ++ "_sub_" ++ toString i)))
    (hnodup : (rs.map (fun r => r.toolCallId)).Nodup) :
    toolCallIds (handleToolRequest textId hasText st0 requestId toolName args).2 =
      (List.range calls.length).map (fun i => requestId ++ "_sub_" ++ toString i) ∧
    ∃ gF stF,
      phase1Run (handleToolRequest textId hasText st0 requestId toolName args).1 rs =
        (stF, [.sendToolResult requestId
          (jsonStringify STRINGIFY_FUEL (.obj (buildAggregate gF))) none], true) ∧
      gF.labels = calls.map expansionLabel ∧
      ((buildAggregate gF).map Prod.fst).Nodup ∧
      (∀ k, k ∈ (buildAggregate gF).map Prod.fst ↔
        k ∈ fallbackLabels (calls.map expansionLabel) calls.length) ∧
      ((fallbackLabels (calls.map expansionLabel) calls.length).Nodup →
        (buildAggregate gF).length = calls.length) := by
  have hsubLen : ((List.range calls.length).map
      (fun i => requestId ++ "_sub_" ++ toString i)).length = calls.length := by
    simp
  constructor
  · show toolCallIds (handleToolRequest textId hasText st0 requestId toolName args).2 = _
    simp only [handleToolRequest, hmap]
    rw [toolCallIds_append, toolCallIds_append, toolCallIds_body, List.map_snd_zip]
    · have hpre : toolCallIds (if hasText then [StreamPart.textEnd textId] else []) = [] := by
        cases hasText <;> rfl
      rw [hpre]
      simp [toolCallIds]
    · rw [hsubLen]
  · have hrs_ne : rs ≠ [] := by
      intro hc
      subst hc
      have hlen := hperm.length_eq
      simp at hlen
      have : calls.length = 0 := by omega
      exact hcalls (List.length_eq_zero.mp this)
    have hfilter : rs.filter (fun r => r.toolCallId ∉ st0.sentToolCallIds) = rs :=
      List.filter_eq_self.mpr (fun r hr => by simpa using hfresh r hr)
    obtain ⟨gF, stF, hfold, hlab, hsubs⟩ :=
      phase1_aggregate_loop requestId calls.length hsub rs
        { st0 with
          multiCallGroups := mapSet st0.multiCallGroups requestId
            ⟨(List.range calls.length).map (fun i => requestId ++ "_sub_" ++ toString i),
             calls.map expansionLabel, []⟩
          pendingToolRequests :=
            ((List.range calls.length).map
              (fun i => requestId ++ "_sub_" ++ toString i)).foldl setAdd
              (setAdd st0.pendingToolRequests requestId) }
        ⟨(List.range calls.length).map (fun i => requestId ++ "_sub_" ++ toString i),
         calls.map expansionLabel, []⟩
        [] false
        (mapGet_mapSet_self _ _ _)
        rfl
        (by simpa using hperm)
        (by simpa using hnodup)
        hrs_ne
    have hgFsubLen : gF.subIds.length = calls.length := by
      rw [hsubs]
      simp
    refine ⟨gF, stF, ?_, hlab, ?_, ?_, ?_⟩
    · show phase1Run (handleToolRequest textId hasText st0 requestId toolName args).1 rs = _
      simp only [handleToolRequest, hmap]
      show (rs.filter _).foldl _ _ = _
      rw [hfilter]
      rw [hfold]
      rfl
    · rw [buildAggregate_keys]
      exact (dedupKeysAux_nodup _ []).1
    · intro k
      rw [buildAggregate_keys, dedupKeysAux_mem, hlab, hgFsubLen]
      simp
    · intro hnd
      have hkeys : (buildAggregate gF).map Prod.fst =
          fallbackLabels (calls.map expansionLabel) calls.length := by
        rw [buildAggregate_keys, hlab, hgFsubLen]
        exact dedupKeysAux_of_nodup _ [] hnd (by simp)
      have hlen1 : ((buildAggregate gF).map Prod.fst).length =
          (fallbackLabels (calls.map expansionLabel) calls.length).length := by
        rw [hkeys]
      rw [List.length_map] at hlen1
      rw [hlen1]
      simp [fallbackLabels]

/-- C2 counterexample: read_files with the duplicate paths a.txt, a.txt
expands to N = 2 sub-calls, but the aggregate sent for the original request
is the serialization of an object with a single key (the second write
overwrote the first), not an object of size N = 2 as claimed. -/
theorem c2_counterexample :
    (phase1Run
      (handleToolRequest "T" false ⟨[], [], []⟩ "R" "read_files"
        [("file_paths", .arr [.str "a.txt", .str "a.txt"])]).1
      [⟨"R_sub_0", "A", none⟩, ⟨"R_sub_1", "B", none⟩]).2.1 =
      [.sendToolResult "R" (jsonStringify STRINGIFY_FUEL
        (.obj [("a.txt", .obj [("content", .str "B")])])) none] ∧
    ¬ (([("a.txt", Json.obj [("content", Json.str "B")])] : List (String × Json)).length = 2) := by
  exact ⟨rfl, by decide⟩

/-- C2 witness: a concrete two-file expansion produces the two sub tool-call
ids, and results returned out of order complete the aggregate send. -/
theorem c2_witness :
    toolCallIds (handleToolRequest "T" false ⟨[], [], []⟩ "R" "read_files"
      [("file_paths", .arr [.str "a.txt", .str "b.txt"])]).2 = ["R_sub_0", "R_sub_1"] ∧
    (phase1Run (handleToolRequest "T" false ⟨[], [], []⟩ "R" "read_files"
      [("file_paths", .arr [.str "a.txt", .str "b.txt"])]).1
      [⟨"R_sub_1", "B", none⟩, ⟨"R_sub_0", "A", none⟩]).2.2 = true := by
  have h := c2_multi_call_expansion "T" "R" "read_files"
    [("file_paths", .arr [.str "a.txt", .str "b.txt"])] ⟨[], [], []⟩
    [⟨"read", [("filePath", .str "a.txt")]⟩, ⟨"read", [("filePath", .str "b.txt")]⟩] false
    [⟨"R_sub_1", "B", none⟩, ⟨"R_sub_0", "A", none⟩]
    rfl (by simp) rfl (by intro r _; simp) (by decide) (by decide)
  refine ⟨?_, ?_⟩
  · rw [h.1]
    rfl
  · obtain ⟨gF, stF, hrun, -⟩ := h.2
    rw [hrun]

/-- The checkpoint state after feeding one snapshot. -/
def stepCheckpoint (st : CheckpointState) (raw : String) : CheckpointState :=
  (extractAgentTextDeltas raw st).2

/-- The deltas extractAgentTextDeltas emits for one fixed index. -/
def deltasAtIdx (i : Nat) (raw : String) (st : CheckpointState) : List String :=
  match (parseCheckpoint raw)[i]? with
  | some item => entryDeltas st.uiChatLog[i]? item
  | none => []

/-- Deltas emitted for index i across a sequence of snapshots fed in order
through one state. -/
def runDeltasAt (i : Nat) : List String → CheckpointState → List String
  | [], _ => []
  | raw :: rest, st => deltasAtIdx i raw st ++ runDeltasAt i rest (stepCheckpoint st raw)

/-- Concatenation of a list of strings. -/
def sconcat (l : List String) : String := String.mk (l.flatMap String.data)

/-- Content of the entry at index i of a parsed snapshot ("" when absent). -/
def contentAt (i : Nat) (raw : String) : String :=
  (((parseCheckpoint raw)[i]?).map (fun e => e.content)).getD ""

/-- The content a state entry contributes as the diffing base: the previous
content when the slot holds an agent entry, "" otherwise (absent and
non-agent slots restart from the full content). -/
def prevContent : Option UiChatLogEntry → String
  | some e => if e.message_type = "agent" then e.content else ""
  | none => ""

/-- sconcat over append, on character data. -/
theorem sconcat_append (a b : List String) :
    (sconcat (a ++ b)).data = (sconcat a).data ++ (sconcat b).data := by
  show (a ++ b).flatMap String.data = a.flatMap String.data ++ b.flatMap String.data
  rw [List.flatMap_append]

/-- One agent entry whose content extends the diffing base contributes
exactly the suffix past the base. -/
theorem entryDeltas_concat (prev? : Option UiChatLogEntry) (item : UiChatLogEntry)
    (hitem : item.message_type = "agent")
    (hpref : List.isPrefixOf (prevContent prev?).data item.content.data = true) :
    (sconcat (entryDeltas prev? item)).data =
      item.content.data.drop (prevContent prev?).data.length := by
  have hfull : (sconcat (if item.content ≠ "" then [item.content] else [])).data =
      item.content.data := by
    by_cases hc : item.content = ""
    · rw [if_neg (by simp [hc]), hc]
      rfl
    · rw [if_pos hc]
      show item.content.data ++ [] = item.content.data
      simp
  simp only [entryDeltas, hitem]
  rw [if_neg (by simp)]
  cases prev? with
  | none =>
    show (sconcat (if item.content ≠ "" then [item.content] else [])).data =
      item.content.data.drop ((("" : String)).data.length)
    rw [hfull]
    rfl
  | some prev =>
    show (sconcat (
        if prev.message_type ≠ "agent" then (if item.content ≠ "" then [item.content] else [])
        else if item.content = prev.content then []
        else if jsStartsWith item.content prev.content = true then
          (if jsSliceFrom item.content prev.content.data.length ≠ "" then
            [jsSliceFrom item.content prev.content.data.length] else [])
        else (if item.content ≠ "" then [item.content] else []))).data =
      item.content.data.drop ((prevContent (some prev)).data.length)
    by_cases hpa : prev.message_type = "agent"
    · rw [if_neg (show ¬ (prev.message_type ≠ "agent") by simp [hpa])]
      have hpc : prevContent (some prev) = prev.content := by
        simp [prevContent, hpa]
      rw [hpc] at hpref ⊢
      by_cases heq : item.content = prev.content
      · rw [if_pos heq, heq]
        show ([] : List Char) = _
        rw [List.drop_length]
      · rw [if_neg heq]
        rw [if_pos (show jsStartsWith item.content prev.content = true from hpref)]
        by_cases hd : jsSliceFrom item.content prev.content.data.length = ""
        · rw [if_neg (fun hc => hc hd)]
          have hdd : item.content.data.drop prev.content.data.length = [] :=
            congrArg String.data hd
          rw [hdd]
          rfl
        · rw [if_pos hd]
          show (jsSliceFrom item.content prev.content.data.length).data ++ [] = _
          simp [jsSliceFrom]
    · rw [if_pos (show prev.message_type ≠ "agent" from hpa)]
      have hpc : prevContent (some prev) = "" := by
        simp [prevContent, hpa]
      rw [hpc, hfull]
      rfl

/-- Defaults do not matter for getLastD of a non-empty list. -/
theorem getLastD_irrel : ∀ (l : List String) (a b : String), l ≠ [] →
    l.getLastD a = l.getLastD b := by
  intro l
  induction l with
  | nil => intro a b h; exact absurd rfl h
  | cons x xs ih =>
    intro a b _
    cases xs with
    | nil => rfl
    | cons y ys => rfl

/-- Induction core of C1: threading the state through a non-empty snapshot
sequence whose entry at index i is always agent-typed and chain-extends the
state's base content, the per-index deltas concatenate to the final content
minus the base, which the final content extends. -/
theorem c1_aux (i : Nat) : ∀ (raws : List String) (raw0 : String) (st : CheckpointState),
    (∀ raw ∈ raw0 :: raws, ∃ e, (parseCheckpoint raw)[i]? = some e ∧
      e.message_type = "agent") →
    List.Chain' (fun a b => List.isPrefixOf a.data b.data = true)
      (prevContent st.uiChatLog[i]? :: (raw0 :: raws).map (contentAt i)) →
    (sconcat (runDeltasAt i (raw0 :: raws) st)).data =
      (contentAt i ((raw0 :: raws).getLastD "")).data.drop
        (prevContent st.uiChatLog[i]?).data.length ∧
    List.isPrefixOf (prevContent st.uiChatLog[i]?).data
      (contentAt i ((raw0 :: raws).getLastD "")).data = true := by
  intro raws
  induction raws with
  | nil =>
    intro raw0 st hAgent hChain
    obtain ⟨e, he, hagent⟩ := hAgent raw0 (List.mem_cons_self raw0 [])
    have hc0 : contentAt i raw0 = e.content := by
      simp [contentAt, he]
    have hR : List.isPrefixOf (prevContent st.uiChatLog[i]?).data
        (contentAt i raw0).data = true := by
      have := List.chain'_cons.mp hChain
      simpa using this.1
    have hlast : (([raw0] : List String).getLastD "") = raw0 := rfl
    rw [hlast]
    refine ⟨?_, hR⟩
    show (sconcat (deltasAtIdx i raw0 st ++ [])).data = _
    rw [List.append_nil]
    have hD : deltasAtIdx i raw0 st = entryDeltas st.uiChatLog[i]? e := by
      simp [deltasAtIdx, he]
    rw [hD, hc0]
    exact entryDeltas_concat _ e hagent (by rw [hc0] at hR; exact hR)
  | cons raw1 raws ih =>
    intro raw0 st hAgent hChain
    obtain ⟨e, he, hagent⟩ := hAgent raw0 (List.mem_cons_self _ _)
    have hc0 : contentAt i raw0 = e.content := by
      simp [contentAt, he]
    have hR : List.isPrefixOf (prevContent st.uiChatLog[i]?).data
        (contentAt i raw0).data = true := by
      have := List.chain'_cons.mp hChain
      simpa using this.1
    have hprev1 : prevContent (stepCheckpoint st raw0).uiChatLog[i]? = contentAt i raw0 := by
      show prevContent (parseCheckpoint raw0)[i]? = _
      rw [he, hc0]
      simp [prevContent, hagent]
    have hAgent1 : ∀ raw ∈ raw1 :: raws, ∃ e, (parseCheckpoint raw)[i]? = some e ∧
        e.message_type = "agent" := fun raw hr => hAgent raw (List.mem_cons_of_mem _ hr)
    have hChain1 : List.Chain' (fun a b => List.isPrefixOf a.data b.data = true)
        (prevContent (stepCheckpoint st raw0).uiChatLog[i]? ::
          (raw1 :: raws).map (contentAt i)) := by
      rw [hprev1]
      simpa using hChain.tail
    obtain ⟨ih1, ih2⟩ := ih raw1 (stepCheckpoint st raw0) hAgent1 hChain1
    rw [hprev1] at ih1 ih2
    obtain ⟨s, hs⟩ := (isPrefixOf_eq_true_iff _ _).mp hR
    obtain ⟨t, htl⟩ := (isPrefixOf_eq_true_iff _ _).mp ih2
    have hlast : ((raw0 :: raw1 :: raws).getLastD "") = ((raw1 :: raws).getLastD "") := by
      rw [List.getLastD_cons]
      exact getLastD_irrel _ raw0 "" (by simp)
    rw [hlast]
    constructor
    · show (sconcat (deltasAtIdx i raw0 st ++
        runDeltasAt i (raw1 :: raws) (stepCheckpoint st raw0))).data = _
      rw [sconcat_append]
      have hD : deltasAtIdx i raw0 st = entryDeltas st.uiChatLog[i]? e := by
        simp [deltasAtIdx, he]
      rw [hD]
      rw [entryDeltas_concat _ e hagent (by rw [hc0] at hR; exact hR)]
      rw [ih1, ← hc0, htl, hs]
      rw [List.drop_left, List.drop_left, List.append_assoc, List.drop_left]
    · apply (isPrefixOf_eq_true_iff _ _).mpr
      exact ⟨s ++ t, by rw [htl, hs, List.append_assoc]⟩

/-- C1: feeding a sequence of checkpoint snapshots in order through one
CheckpointState (fresh, as created with the session), when the entry at
index i is agent-typed in every snapshot and its contents grow by prefix
extension, the deltas the differ emits for index i concatenate to exactly
the final snapshot's content at i. The first conjunct grounds the per-index
deltas in extractAgentTextDeltas: its output is the in-order flattening of
the per-index contributions. -/
theorem c1_delta_concat (raws : List String) (i : Nat)
    (hne : raws ≠ [])
    (hAgent : ∀ raw ∈ raws, ∃ e, (parseCheckpoint raw)[i]? = some e ∧
      e.message_type = "agent")
    (hMono : List.Chain' (fun a b => List.isPrefixOf a.data b.data = true)
      (raws.map (contentAt i))) :
    (∀ raw st, (extractAgentTextDeltas raw st).1 =
      (List.range (parseCheckpoint raw).length).flatMap (fun j => deltasAtIdx j raw st)) ∧
    sconcat (runDeltasAt i raws createCheckpointState) = contentAt i (raws.getLastD "") := by
  refine ⟨fun raw st => rfl, ?_⟩
  cases raws with
  | nil => exact absurd rfl hne
  | cons raw0 rest =>
    have hprev0 : prevContent (createCheckpointState.uiChatLog[i]?) = "" := by
      show prevContent (([] : List UiChatLogEntry)[i]?) = ""
      rw [List.getElem?_nil]
      rfl
    have hchain : List.Chain' (fun a b => List.isPrefixOf a.data b.data = true)
        (prevContent (createCheckpointState.uiChatLog[i]?) ::
          (raw0 :: rest).map (contentAt i)) := by
      rw [hprev0]
      cases hm : (raw0 :: rest).map (contentAt i) with
      | nil => simp at hm
      | cons c cs =>
        apply List.Chain'.cons
        · exact (isPrefixOf_eq_true_iff _ _).mpr ⟨c.data, rfl⟩
        · rw [hm] at hMono
          exact hMono
    obtain ⟨h1, h2⟩ := c1_aux i rest raw0 createCheckpointState hAgent hchain
    rw [hprev0] at h1
    have hdata : (sconcat (runDeltasAt i (raw0 :: rest) createCheckpointState)).data =
        (contentAt i ((raw0 :: rest).getLastD "")).data := by
      rw [h1]
      rfl
    exact congrArg String.mk hdata

/-- A concrete checkpoint snapshot extending ckptHel's agent content. -/
def ckptHello : String :=
  "\x7b\"channel_values\":\x7b\"ui_chat_log\":[\x7b\"message_type\":\"agent\",\"content\":\"Hello.\"\x7d]\x7d\x7d"

/-- C1 witness: the two concrete snapshots "Hel" then "Hello." concatenate
their index-0 deltas to "Hello.". -/
theorem c1_witness :
    sconcat (runDeltasAt 0 [ckptHel, ckptHello] createCheckpointState) = "Hello." := by
  have h := c1_delta_concat [ckptHel, ckptHello] 0 (by simp)
    (by
      intro raw hr
      rcases List.mem_cons.mp hr with rfl | hr2
      · exact ⟨⟨"agent", "Hel", none, none⟩, rfl, rfl⟩
      · rcases List.mem_cons.mp hr2 with rfl | hr3
        · exact ⟨⟨"agent", "Hello.", none, none⟩, rfl, rfl⟩
        · exact absurd hr3 (List.not_mem_nil raw))
    (by
      show List.Chain' (fun a b => List.isPrefixOf a.data b.data = true) ["Hel", "Hello."]
      exact List.Chain'.cons rfl (List.chain'_singleton _))
  rw [h.2]
  rfl

/-- Zeta-expanded form of unwrapWrappingQuotes. -/
lemma unwrapWrappingQuotes_eq (value : String) :
    unwrapWrappingQuotes value =
      if (jsTrim value).data.length < 2 then jsTrim value
      else if (jsTrim value).data.head? = (jsTrim value).data.getLast? ∧
          ((jsTrim value).data.head? = some squoteChar ∨
            (jsTrim value).data.head? = some '"') then
        String.mk (((jsTrim value).data.drop 1).dropLast)
      else jsTrim value := rfl

/-- Trimming fixes a string delimited by a non-whitespace character. -/
lemma jsTrim_quoted (c : Char) (hws : jsIsWs c = false) (l : List Char) :
    jsTrim (String.mk (c :: (l ++ [c]))) = String.mk (c :: (l ++ [c])) := by
  unfold jsTrim
  apply congrArg String.mk
  show (((c :: (l ++ [c])).dropWhile jsIsWs).reverse.dropWhile jsIsWs).reverse = c :: (l ++ [c])
  simp [List.dropWhile_cons, hws]

/-- Stripping one layer of wrapping quotes from a quote-delimited string. -/
lemma unwrap_wrap_list (c : Char) (hws : jsIsWs c = false)
    (hq : c = squoteChar ∨ c = '"') (l : List Char) :
    unwrapWrappingQuotes (String.mk (c :: (l ++ [c]))) = String.mk l := by
  rw [unwrapWrappingQuotes_eq, jsTrim_quoted c hws]
  have hlen : ¬ ((String.mk (c :: (l ++ [c]))).data.length < 2) := by
    show ¬ ((c :: (l ++ [c])).length < 2)
    have h2 : (c :: (l ++ [c])).length = l.length + 2 := by simp
    omega
  rw [if_neg hlen]
  have hh : (String.mk (c :: (l ++ [c]))).data.head? = some c := rfl
  have hlast : (String.mk (c :: (l ++ [c]))).data.getLast? = some c := by
    show ((c :: l) ++ [c]).getLast? = some c
    exact List.getLast?_concat _
  have hdisj : (String.mk (c :: (l ++ [c]))).data.head? = some squoteChar ∨
      (String.mk (c :: (l ++ [c]))).data.head? = some '"' := by
    rcases hq with rfl | rfl
    · exact Or.inl hh
    · exact Or.inr hh
  rw [if_pos ⟨hh.trans hlast.symm, hdisj⟩]
  apply congrArg String.mk
  show (l ++ [c]).dropLast = l
  exact List.dropLast_concat

/-- A string append with a nonempty right operand is nonempty. -/
lemma append_ne_empty_right (a b : String) (h : b ≠ "") : a ++ b ≠ "" := by
  intro hc
  apply h
  have h2 : a.data ++ b.data = ([] : List Char) := congrArg String.data hc
  exact congrArg String.mk (List.append_eq_nil.mp h2).2

/-- The bridge contract for one program: the mapped call is the target tool
or the invalid-tool signal for it with a nonempty error. -/
def bridgeOk (tool : String) (m : MappedToolCall) : Prop :=
  m.toolName = tool ∨ ∃ e, m = invalidTool tool e ∧ e ≠ ""

/-- The bridge contract for any of the five bridge programs. -/
def bridgeOk5 (m : MappedToolCall) : Prop :=
  bridgeOk "todoread" m ∨ bridgeOk "todowrite" m ∨ bridgeOk "webfetch" m ∨
    bridgeOk "question" m ∨ bridgeOk "skill" m

/-- parseObjectPayload only produces nonempty error messages. -/
lemma parseObjectPayload_error_ne (raw prog e : String)
    (h : parseObjectPayload raw prog = .error e) : e ≠ "" := by
  unfold parseObjectPayload at h
  repeat' (first | split at h | dsimp only [] at h)
  all_goals first
    | exact Except.noConfusion h
    | (injection h with h; subst h; exact append_ne_empty_right _ _ (by decide))

/-- parsePayloadFromArguments only produces nonempty error messages. -/
lemma parsePayloadFromArguments_error_ne (rawArguments : Option Json) (prog e : String)
    (h : parsePayloadFromArguments rawArguments prog = .error e) : e ≠ "" := by
  unfold parsePayloadFromArguments at h
  repeat' (first | split at h | dsimp only [] at h)
  all_goals first
    | exact Except.noConfusion h
    | (injection h with h; subst h; exact append_ne_empty_right _ _ (by decide))

/-- The todos validation loop only produces nonempty error messages. -/
lemma parseTodosAux_error_ne (l : List Json) :
    ∀ (i : Nat) (e : String), parseTodosAux i l = .error e → e ≠ "" := by
  induction l with
  | nil => intro i e h; exact Except.noConfusion h
  | cons t rest ih =>
    intro i e h
    unfold parseTodosAux at h
    repeat' (first | split at h | dsimp only [] at h)
    all_goals first
      | exact Except.noConfusion h
      | (injection h with h; subst h;
         first
         | exact append_ne_empty_right _ _ (by decide)
         | exact ih _ _ (by assumption))

/-- parseTodos only produces nonempty error messages. -/
lemma parseTodos_error_ne (fields : List (String × Json)) (e : String)
    (h : parseTodos fields = .error e) : e ≠ "" := by
  unfold parseTodos at h
  repeat' (first | split at h | dsimp only [] at h)
  all_goals first
    | exact Except.noConfusion h
    | exact parseTodosAux_error_ne _ _ _ h
    | (injection h with h; subst h; decide)

/-- parseWebfetchPayload only produces nonempty error messages. -/
lemma parseWebfetchPayload_error_ne (raw e : String)
    (h : parseWebfetchPayload raw = .error e) : e ≠ "" := by
  unfold parseWebfetchPayload at h
  repeat' (first | split at h | dsimp only [] at h)
  all_goals first
    | exact Except.noConfusion h
    | (injection h with h; subst h;
       first
       | decide
       | exact parseObjectPayload_error_ne _ _ _ (by assumption))

/-- parseSkillPayload only produces nonempty error messages. -/
lemma parseSkillPayload_error_ne (raw e : String)
    (h : parseSkillPayload raw = .error e) : e ≠ "" := by
  unfold parseSkillPayload at h
  repeat' (first | split at h | dsimp only [] at h)
  all_goals first
    | exact Except.noConfusion h
    | (injection h with h; subst h;
       first
       | decide
       | exact parseObjectPayload_error_ne _ _ _ (by assumption))

/-- parseQuestionOption only produces nonempty error messages. -/
lemma parseQuestionOption_error_ne (i j : Nat) (o : Json) (e : String)
    (h : parseQuestionOption i j o = .error e) : e ≠ "" := by
  unfold parseQuestionOption at h
  repeat' (first | split at h | dsimp only [] at h)
  all_goals first
    | exact Except.noConfusion h
    | (injection h with h; subst h; exact append_ne_empty_right _ _ (by decide))

/-- The question options loop only produces nonempty error messages. -/
lemma parseQuestionOptionsAux_error_ne (l : List Json) :
    ∀ (i j : Nat) (e : String), parseQuestionOptionsAux i j l = .error e → e ≠ "" := by
  induction l with
  | nil => intro i j e h; exact Except.noConfusion h
  | cons o rest ih =>
    intro i j e h
    unfold parseQuestionOptionsAux at h
    repeat' (first | split at h | dsimp only [] at h)
    all_goals first
      | exact Except.noConfusion h
      | (injection h with h; subst h;
         first
         | exact parseQuestionOption_error_ne _ _ _ _ (by assumption)
         | exact ih _ _ _ (by assumption))

/-- parseQuestion only produces nonempty error messages. -/
lemma parseQuestion_error_ne (i : Nat) (q : Json) (e : String)
    (h : parseQuestion i q = .error e) : e ≠ "" := by
  unfold parseQuestion at h
  repeat' (first | split at h | dsimp only [] at h)
  all_goals first
    | exact Except.noConfusion h
    | (injection h with h; subst h;
       first
       | exact append_ne_empty_right _ _ (by decide)
       | exact parseQuestionOptionsAux_error_ne _ _ _ _ (by assumption))

/-- The questions loop only produces nonempty error messages. -/
lemma parseQuestionsAux_error_ne (l : List Json) :
    ∀ (i : Nat) (e : String), parseQuestionsAux i l = .error e → e ≠ "" := by
  induction l with
  | nil => intro i e h; exact Except.noConfusion h
  | cons q rest ih =>
    intro i e h
    unfold parseQuestionsAux at h
    repeat' (first | split at h | dsimp only [] at h)
    all_goals first
      | exact Except.noConfusion h
      | (injection h with h; subst h;
         first
         | exact parseQuestion_error_ne _ _ _ (by assumption)
         | exact ih _ _ (by assumption))

/-- parseQuestionPayload only produces nonempty error messages. -/
lemma parseQuestionPayload_error_ne (raw e : String)
    (h : parseQuestionPayload raw = .error e) : e ≠ "" := by
  unfold parseQuestionPayload at h
  repeat' (first | split at h | dsimp only [] at h)
  all_goals first
    | exact Except.noConfusion h
    | (injection h with h; subst h;
       first
       | decide
       | exact parseObjectPayload_error_ne _ _ _ (by assumption)
       | exact parseQuestionsAux_error_ne _ _ _ (by assumption))

/-- mapTodoWritePayload satisfies the bridge contract. -/
lemma mapTodoWritePayload_ok (raw : String) :
    bridgeOk "todowrite" (mapTodoWritePayload raw) := by
  unfold mapTodoWritePayload
  split
  · rename_i e heq
    exact Or.inr ⟨e, rfl, parseObjectPayload_error_ne _ _ _ heq⟩
  · rename_i fields heq
    split
    · rename_i e2 heq2
      exact Or.inr ⟨e2, rfl, parseTodos_error_ne _ _ heq2⟩
    · exact Or.inl rfl

/-- mapWebfetchPayload satisfies the bridge contract. -/
lemma mapWebfetchPayload_ok (raw : String) :
    bridgeOk "webfetch" (mapWebfetchPayload raw) := by
  unfold mapWebfetchPayload
  split
  · rename_i e heq
    exact Or.inr ⟨e, rfl, parseWebfetchPayload_error_ne _ _ heq⟩
  · exact Or.inl rfl

/-- mapQuestionPayload satisfies the bridge contract. -/
lemma mapQuestionPayload_ok (raw : String) :
    bridgeOk "question" (mapQuestionPayload raw) := by
  unfold mapQuestionPayload
  split
  · rename_i e heq
    exact Or.inr ⟨e, rfl, parseQuestionPayload_error_ne _ _ heq⟩
  · exact Or.inl rfl

/-- mapSkillPayload satisfies the bridge contract. -/
lemma mapSkillPayload_ok (raw : String) :
    bridgeOk "skill" (mapSkillPayload raw) := by
  unfold mapSkillPayload
  split
  · rename_i e heq
    exact Or.inr ⟨e, rfl, parseSkillPayload_error_ne _ _ heq⟩
  · exact Or.inl rfl

/-- mapTodoWriteCall satisfies the bridge contract. -/
lemma mapTodoWriteCall_ok (rawArgs : Option Json) :
    bridgeOk "todowrite" (mapTodoWriteCall rawArgs) := by
  unfold mapTodoWriteCall
  split
  · rename_i e heq
    exact Or.inr ⟨e, rfl, parsePayloadFromArguments_error_ne _ _ _ heq⟩
  · exact mapTodoWritePayload_ok _

/-- mapWebfetchCall satisfies the bridge contract. -/
lemma mapWebfetchCall_ok (rawArgs : Option Json) :
    bridgeOk "webfetch" (mapWebfetchCall rawArgs) := by
  unfold mapWebfetchCall
  split
  · rename_i e heq
    exact Or.inr ⟨e, rfl, parsePayloadFromArguments_error_ne _ _ _ heq⟩
  · exact mapWebfetchPayload_ok _

/-- mapQuestionCall satisfies the bridge contract. -/
lemma mapQuestionCall_ok (rawArgs : Option Json) :
    bridgeOk "question" (mapQuestionCall rawArgs) := by
  unfold mapQuestionCall
  split
  · rename_i e heq
    exact Or.inr ⟨e, rfl, parsePayloadFromArguments_error_ne _ _ _ heq⟩
  · exact mapQuestionPayload_ok _

/-- mapSkillCall satisfies the bridge contract. -/
lemma mapSkillCall_ok (rawArgs : Option Json) :
    bridgeOk "skill" (mapSkillCall rawArgs) := by
  unfold mapSkillCall
  split
  · rename_i e heq
    exact Or.inr ⟨e, rfl, parsePayloadFromArguments_error_ne _ _ _ heq⟩
  · exact mapSkillPayload_ok _

/-- Every recognized bridge command maps inside the bridge contract. -/
lemma mapBridgeCommand_ok (cmd : String) (m : MappedToolCall)
    (h : mapBridgeCommand cmd = some m) : bridgeOk5 m := by
  unfold mapBridgeCommand at h
  by_cases h1 : jsTrim cmd = "__todo_read__"
  · rw [if_pos h1] at h
    injection h with h; subst h
    exact Or.inl (Or.inl rfl)
  rw [if_neg h1] at h
  by_cases h2 : jsStartsWith (jsTrim cmd) "__todo_read__ " = true
  · rw [if_pos h2] at h
    injection h with h; subst h
    exact Or.inl (Or.inr ⟨_, rfl, by decide⟩)
  rw [if_neg h2] at h
  by_cases h3 : jsTrim cmd = "__todo_write__"
  · rw [if_pos h3] at h
    injection h with h; subst h
    exact Or.inr (Or.inl (Or.inr ⟨_, rfl, by decide⟩))
  rw [if_neg h3] at h
  by_cases h4 : jsTrim cmd = "__webfetch__"
  · rw [if_pos h4] at h
    injection h with h; subst h
    exact Or.inr (Or.inr (Or.inl (Or.inr ⟨_, rfl, by decide⟩)))
  rw [if_neg h4] at h
  by_cases h5 : jsTrim cmd = "__question__"
  · rw [if_pos h5] at h
    injection h with h; subst h
    exact Or.inr (Or.inr (Or.inr (Or.inl (Or.inr ⟨_, rfl, by decide⟩))))
  rw [if_neg h5] at h
  by_cases h6 : jsTrim cmd = "__skill__"
  · rw [if_pos h6] at h
    injection h with h; subst h
    exact Or.inr (Or.inr (Or.inr (Or.inr (Or.inr ⟨_, rfl, by decide⟩))))
  rw [if_neg h6] at h
  by_cases h7 : jsStartsWith (jsTrim cmd) "__todo_write__ " = true
  · rw [if_pos h7] at h
    by_cases h7e : jsTrim (jsSliceFrom (jsTrim cmd) "__todo_write__".data.length) = ""
    · rw [if_pos h7e] at h
      injection h with h; subst h
      exact Or.inr (Or.inl (Or.inr ⟨_, rfl, by decide⟩))
    · rw [if_neg h7e] at h
      injection h with h; subst h
      exact Or.inr (Or.inl (mapTodoWritePayload_ok _))
  rw [if_neg h7] at h
  by_cases h8 : jsStartsWith (jsTrim cmd) "__webfetch__ " = true
  · rw [if_pos h8] at h
    by_cases h8e : jsTrim (jsSliceFrom (jsTrim cmd) "__webfetch__".data.length) = ""
    · rw [if_pos h8e] at h
      injection h with h; subst h
      exact Or.inr (Or.inr (Or.inl (Or.inr ⟨_, rfl, by decide⟩)))
    · rw [if_neg h8e] at h
      injection h with h; subst h
      exact Or.inr (Or.inr (Or.inl (mapWebfetchPayload_ok _)))
  rw [if_neg h8] at h
  by_cases h9 : jsStartsWith (jsTrim cmd) "__question__ " = true
  · rw [if_pos h9] at h
    by_cases h9e : jsTrim (jsSliceFrom (jsTrim cmd) "__question__".data.length) = ""
    · rw [if_pos h9e] at h
      injection h with h; subst h
      exact Or.inr (Or.inr (Or.inr (Or.inl (Or.inr ⟨_, rfl, by decide⟩))))
    · rw [if_neg h9e] at h
      injection h with h; subst h
      exact Or.inr (Or.inr (Or.inr (Or.inl (mapQuestionPayload_ok _))))
  rw [if_neg h9] at h
  by_cases h10 : jsStartsWith (jsTrim cmd) "__skill__ " = true
  · rw [if_pos h10] at h
    by_cases h10e : jsTrim (jsSliceFrom (jsTrim cmd) "__skill__".data.length) = ""
    · rw [if_pos h10e] at h
      injection h with h; subst h
      exact Or.inr (Or.inr (Or.inr (Or.inr (Or.inr ⟨_, rfl, by decide⟩))))
    · rw [if_neg h10e] at h
      injection h with h; subst h
      exact Or.inr (Or.inr (Or.inr (Or.inr (mapSkillPayload_ok _))))
  rw [if_neg h10] at h
  exact Option.noConfusion h

/-- The run_command fallback is the pass-through or a bash call. -/
lemma runCommandFallback_ok (t : String) (args : List (String × Json))
    (c : Option String) (m : MappedToolCall)
    (h : runCommandFallback t args c = .inl m) :
    m.toolName = t ∨ m.toolName = "bash" := by
  unfold runCommandFallback at h
  repeat' (first | split at h | dsimp only [] at h)
  all_goals injection h with h
  all_goals subst h
  all_goals first | exact Or.inl rfl | exact Or.inr rfl

/-- The bridged-command probe of the run_command case keeps the contract. -/
lemma bridgedAux_ok (command : Option String) (b : MappedToolCall)
    (heq : (match command with
            | some c => if c = "" then none else mapBridgeCommand c
            | none => none) = some b) : bridgeOk5 b := by
  split at heq
  · split at heq
    · exact Option.noConfusion heq
    · exact mapBridgeCommand_ok _ _ heq
  · exact Option.noConfusion heq

/-- The shell_command entry point: pass-through, bash, or a bridge result. -/
lemma shellCommand_ok (args : List (String × Json)) (m : MappedToolCall)
    (h : mapDuoToolRequest "shell_command" args = .inl m) :
    m.toolName = "shell_command" ∨ m.toolName = "bash" ∨ bridgeOk5 m := by
  have e1 : mapDuoToolRequest "shell_command" args =
      (match asString (objGet args "command") with
       | some cmd =>
         if cmd = "" then Sum.inl ⟨"shell_command", args⟩
         else
           match mapBridgeCommand cmd with
           | some bridged => Sum.inl bridged
           | none => Sum.inl ⟨"bash", [("command", .str cmd), ("description", .str "Run shell command"), ("workdir", .str ".")]⟩
       | none => Sum.inl ⟨"shell_command", args⟩) := rfl
  rw [e1] at h
  repeat' split at h
  all_goals injection h with h
  all_goals subst h
  all_goals first
    | exact Or.inl rfl
    | exact Or.inr (Or.inl rfl)
    | exact Or.inr (Or.inr (mapBridgeCommand_ok _ _ (by assumption)))

/-- The run_command entry point: pass-through, bash, or a bridge result. -/
lemma runCommand_ok (args : List (String × Json)) (m : MappedToolCall)
    (h : mapDuoToolRequest "run_command" args = .inl m) :
    m.toolName = "run_command" ∨ m.toolName = "bash" ∨ bridgeOk5 m := by
  have e1 : mapDuoToolRequest "run_command" args =
      (match (match asString (objGet args "command") with
              | some c => if c = "" then none else mapBridgeCommand c
              | none => none) with
       | some b => Sum.inl b
       | none =>
         if asString (objGet args "program") = some "__todo_read__" then Sum.inl ⟨"todoread", []⟩
         else if asString (objGet args "program") = some "__todo_write__" then
           Sum.inl (mapTodoWriteCall (objGet args "arguments"))
         else if asString (objGet args "program") = some "__webfetch__" then
           Sum.inl (mapWebfetchCall (objGet args "arguments"))
         else if asString (objGet args "program") = some "__question__" then
           Sum.inl (mapQuestionCall (objGet args "arguments"))
         else if asString (objGet args "program") = some "__skill__" then
           Sum.inl (mapSkillCall (objGet args "arguments"))
         else
           match asString (objGet args "program") with
           | some prog =>
             if prog = "" then
               runCommandFallback "run_command" args (asString (objGet args "command"))
             else
               Sum.inl ⟨"bash", [("command", .str (String.intercalate " " ([shellQuote prog] ++
                 (match objGet args "flags" with
                  | some (.arr fs) => fs.map (fun f => shellQuote (jsToString JS_TOSTRING_FUEL f))
                  | _ => []) ++
                 (match objGet args "arguments" with
                  | some (.arr vs) => vs.map (fun v => shellQuote (jsToString JS_TOSTRING_FUEL v))
                  | _ => [])))), ("description", .str "Run command"), ("workdir", .str ".")]⟩
           | none => runCommandFallback "run_command" args (asString (objGet args "command"))) := rfl
  rw [e1] at h
  repeat' split at h
  all_goals first
    | exact Or.imp id Or.inl (runCommandFallback_ok _ _ _ _ h)
    | (injection h with h; subst h;
       first
       | exact Or.inr (Or.inr (bridgedAux_ok _ _ (by assumption)))
       | exact Or.inr (Or.inr (Or.inl (Or.inl rfl)))
       | exact Or.inr (Or.inr (Or.inr (Or.inl (mapTodoWriteCall_ok _))))
       | exact Or.inr (Or.inr (Or.inr (Or.inr (Or.inl (mapWebfetchCall_ok _)))))
       | exact Or.inr (Or.inr (Or.inr (Or.inr (Or.inr (Or.inl (mapQuestionCall_ok _))))))
       | exact Or.inr (Or.inr (Or.inr (Or.inr (Or.inr (Or.inr (mapSkillCall_ok _))))))
       | exact Or.inr (Or.inl rfl))

/-- C6: bridge-tool invocations never escape the mapper as exceptions. The
shell_command and run_command entry points of mapDuoToolRequest always return
a single call that is the pass-through, a bash command, or a bridge result;
every bridge result - for payloads arriving in arguments[0] (the mapXCall
family) as well as embedded in a shell command (mapBridgeCommand) - is either
the target tool call or the invalid-tool signal (toolName "invalid" with a
tool and a nonempty error in args). Wrapping quotes are stripped exactly once
before JSON parsing: a once-wrapped string unwraps to its body for both quote
kinds, a doubly wrapped string keeps its inner quotes, and a once-wrapped
JSON object payload parses to the same fields as the bare payload. -/
theorem c6_bridge_error_handling :
    (∀ args m, mapDuoToolRequest "shell_command" args = .inl m →
      m.toolName = "shell_command" ∨ m.toolName = "bash" ∨ bridgeOk5 m) ∧
    (∀ args m, mapDuoToolRequest "run_command" args = .inl m →
      m.toolName = "run_command" ∨ m.toolName = "bash" ∨ bridgeOk5 m) ∧
    (∀ rawArgs, bridgeOk "todowrite" (mapTodoWriteCall rawArgs) ∧
      bridgeOk "webfetch" (mapWebfetchCall rawArgs) ∧
      bridgeOk "question" (mapQuestionCall rawArgs) ∧
      bridgeOk "skill" (mapSkillCall rawArgs)) ∧
    (∀ cmd m, mapBridgeCommand cmd = some m → bridgeOk5 m) ∧
    (∀ s : String,
      unwrapWrappingQuotes ("\"" ++ s ++ "\"") = s ∧
      unwrapWrappingQuotes (squoteStr ++ s ++ squoteStr) = s ∧
      unwrapWrappingQuotes ("\"\"" ++ s ++ "\"\"") = "\"" ++ s ++ "\"" ∧
      unwrapWrappingQuotes (squoteStr ++ squoteStr ++ s ++ squoteStr ++ squoteStr) =
        squoteStr ++ s ++ squoteStr) ∧
    (∀ s prog fields, jsonParse s = some (.obj fields) →
      parseObjectPayload ("\"" ++ s ++ "\"") prog = .ok fields) := by
  refine ⟨shellCommand_ok, runCommand_ok,
    fun rawArgs => ⟨mapTodoWriteCall_ok _, mapWebfetchCall_ok _,
      mapQuestionCall_ok _, mapSkillCall_ok _⟩,
    mapBridgeCommand_ok, ?_, ?_⟩
  · intro s
    refine ⟨?_, ?_, ?_, ?_⟩
    · exact unwrap_wrap_list '"' (by decide) (Or.inr rfl) s.data
    · exact unwrap_wrap_list squoteChar (by decide) (Or.inl rfl) s.data
    · have harg : ("\"\"" ++ s ++ "\"\"" : String) =
          String.mk ('"' :: (('"' :: (s.data ++ ['"'])) ++ ['"'])) :=
        congrArg String.mk (by simp)
      rw [harg]
      exact unwrap_wrap_list '"' (by decide) (Or.inr rfl) ('"' :: (s.data ++ ['"']))
    · have harg : (squoteStr ++ squoteStr ++ s ++ squoteStr ++ squoteStr : String) =
          String.mk (squoteChar :: ((squoteChar :: (s.data ++ [squoteChar])) ++ [squoteChar])) :=
        congrArg String.mk (by simp)
      rw [harg]
      exact unwrap_wrap_list squoteChar (by decide) (Or.inl rfl)
        (squoteChar :: (s.data ++ [squoteChar]))
  · intro s prog fields hp
    have hu : unwrapWrappingQuotes ("\"" ++ s ++ "\"") = s :=
      unwrap_wrap_list '"' (by decide) (Or.inr rfl) s.data
    unfold parseObjectPayload
    rw [hu]
    simp [hp]

/-- C6 witness: a missing arguments array yields the invalid-tool signal, an
embedded todoread payload command yields the invalid-tool signal, quote
unwrapping strips one layer, and a quote-wrapped empty JSON object payload
parses to the empty field list. -/
theorem c6_witness :
    bridgeOk "todowrite" (mapTodoWriteCall none) ∧
    bridgeOk5 (invalidTool "todoread" "__todo_read__ does not accept a payload") ∧
    unwrapWrappingQuotes ("\"" ++ "hi" ++ "\"") = "hi" ∧
    parseObjectPayload ("\"" ++ "\x7b\x7d" ++ "\"") "__skill__" = .ok [] := by
  obtain ⟨h1, h2, h3, h4, h5, h6⟩ := c6_bridge_error_handling
  exact ⟨(h3 none).1, h4 "__todo_read__ x" _ rfl, (h5 "hi").1,
    h6 "\x7b\x7d" "__skill__" [] rfl⟩

/-- A message the extraction loop stops at: user role with nonempty goal
text. -/
def isGoalMessage (m : PromptMessage) : Bool :=
  decide (m.role = "user") && decide (messageGoalText m ≠ "")

/-- Spec-side definition of the goal (amended wording): the goal text of the
latest user message whose reminder-stripped text is nonempty, or empty. -/
def goalSpec (prompt : List PromptMessage) : String :=
  match prompt.reverse.find? isGoalMessage with
  | some m => messageGoalText m
  | none => ""

/-- The extraction loop returns the first stop-message of the reversed
prompt. -/
lemma extractGoalAux_eq_find (l : List PromptMessage) :
    extractGoalAux l =
      match l.find? isGoalMessage with
      | some m => messageGoalText m
      | none => "" := by
  induction l with
  | nil => rfl
  | cons m rest ih =>
    show (if m.role ≠ "user" then extractGoalAux rest
          else if messageGoalText m ≠ "" then messageGoalText m else extractGoalAux rest) = _
    by_cases hrole : m.role = "user"
    · by_cases htext : messageGoalText m = ""
      · rw [List.find?_cons_of_neg _ (by simp [isGoalMessage, htext])]
        rw [if_neg (fun hc => hc hrole), if_neg (fun hc => hc htext)]
        exact ih
      · rw [List.find?_cons_of_pos _ (by simp [isGoalMessage, hrole, htext])]
        rw [if_neg (fun hc => hc hrole), if_pos htext]
    · rw [List.find?_cons_of_neg _ (by simp [isGoalMessage, hrole])]
      rw [if_pos hrole]
      exact ih

/-- C8 (amended): the extracted goal is the goal text of the latest user
message whose reminder-stripped text is nonempty - the code falls back past
user messages that strip to empty, rather than stopping at the last user
message; when every user message strips to empty the goal is empty. -/
theorem c8_goal_extraction (prompt : List PromptMessage) :
    extractGoal prompt = goalSpec prompt ∧
    ((∀ m ∈ prompt, m.role = "user" → messageGoalText m = "") →
      extractGoal prompt = "") := by
  constructor
  · show extractGoalAux prompt.reverse = goalSpec prompt
    rw [extractGoalAux_eq_find]
    rfl
  · intro hall
    show extractGoalAux prompt.reverse = ""
    rw [extractGoalAux_eq_find]
    have hnone : prompt.reverse.find? isGoalMessage = none := by
      rw [List.find?_eq_none]
      intro m hm hp
      simp only [isGoalMessage, Bool.and_eq_true, decide_eq_true_eq] at hp
      exact hp.2 (hall m (List.mem_reverse.mp hm) hp.1)
    rw [hnone]

/-- C8 counterexample: with a last user message made only of a non-wrapped
system-reminder block, the goal is not empty as the claim predicts - the
code skips back to the earlier user message. -/
theorem c8_counterexample :
    extractGoal [⟨"user", .inr [⟨"text", "hello"⟩]⟩,
      ⟨"user", .inr [⟨"text", "<system-reminder>a</system-reminder>"⟩]⟩] = "hello" ∧
    messageGoalText ⟨"user", .inr [⟨"text", "<system-reminder>a</system-reminder>"⟩]⟩ = "" ∧
    ("hello" : String) ≠ "" :=
  ⟨rfl, rfl, by decide⟩

/-- C8 witness: a prompt whose only user message strips to empty yields the
empty goal. -/
theorem c8_witness :
    extractGoal [⟨"user", .inr [⟨"text", "<system-reminder>a</system-reminder>"⟩]⟩] = "" := by
  apply (c8_goal_extraction _).2
  intro m hm hrole
  rcases List.mem_cons.mp hm with rfl | hm2
  · rfl
  · exact absurd hm2 (List.not_mem_nil m)

end DuoSpec
